import Mathlib

/-!
Shallow embedding of the CustomBorders plugin
(`src/plugins/customBorders/customBorders.js`) of the handsontable
repository, together with proofs about its border-state management.

The plugin keeps three mirrors of one fact:
* `savedBorders` — the authoritative list of `BorderRecord`s,
* `customSelections` — the grid's overlay/highlight collection
  (`this.hot.selection.highlight.customSelections`), and
* per-cell metadata (`getCellMeta(row, col).borders`).

State-transforming methods of the plugin class are embedded as pure
functions `PluginState → ... → PluginState`.  Rendering-only effects
(`this.hot.view.wt.draw`, `toggleHiddenClass` on `instanceBorders`) are
not part of the tracked state.
-/

/-- One edge's visual state (`top` / `right` / `bottom` / `left` slot of a
border record).  In the JavaScript source an edge slot is a plain object;
a missing `hide` key behaves as `hide = false` (`value.hide` is falsy in
`countHide`), and `width` / `color` keys may be absent, which `Option`
models. -/
structure EdgeStyle where
  hide : Bool
  width : Option Nat
  color : Option String
deriving DecidableEq, Repr

/-- Modelled from the spec: `createId(row, col)` of the missing
`customBorders/utils.js` — "stable string key derived deterministically
from `(row, col)`; collision-free for any valid (row, col) pair".  The
pair itself is such a deterministic collision-free key. -/
abbrev BorderId := Int × Int

/-- Modelled from the spec: `createId` of the missing `utils.js`. -/
def createId (row col : Int) : BorderId := (row, col)

/-- Modelled from the spec: `createSingleEmptyBorder()` of the missing
`utils.js` — the default "empty" edge, `hide = true`. -/
def createSingleEmptyBorder : EdgeStyle :=
  { hide := true, width := none, color := none }

/-- Default line width of a visible custom border edge. -/
def defaultBorderWidth : Nat := 1

/-- Default line color of a visible custom border edge. -/
def defaultBorderColor : String := "#000"

/-- Modelled from the spec: `createDefaultCustomBorder()` of the missing
`utils.js` — `hide = false` with default width and color. -/
def createDefaultCustomBorder : EdgeStyle :=
  { hide := false, width := some defaultBorderWidth, color := some defaultBorderColor }

/-- The stored decoration state for one cell: `id`, `row`, `col` and the
four edge sub-records (spec section 3, "BorderRecord"). -/
structure BorderRecord where
  id : BorderId
  row : Int
  col : Int
  top : EdgeStyle
  right : EdgeStyle
  bottom : EdgeStyle
  left : EdgeStyle
deriving DecidableEq, Repr

/-- Modelled from the spec: `createEmptyBorders(row, col)` of the missing
`utils.js` — all four edges are the empty EdgeStyle. -/
def createEmptyBorders (row col : Int) : BorderRecord :=
  { id := createId row col, row := row, col := col,
    top := createSingleEmptyBorder, right := createSingleEmptyBorder,
    bottom := createSingleEmptyBorder, left := createSingleEmptyBorder }

/-- One edge slot of a caller-supplied border descriptor.  In JavaScript a
descriptor key can be absent, present with a falsy value (`''` in the
plugin's documentation example), or present with an object carrying
optional `hide` / `width` / `color` keys. -/
inductive EdgeSpec where
  | absent
  | falsy
  | obj (hide : Option Bool) (width : Option Nat) (color : Option String)
deriving DecidableEq, Repr

/-- Whether a descriptor edge key is present (`hasOwnProperty`). -/
def presentSpec : EdgeSpec → Bool
  | EdgeSpec.absent => false
  | EdgeSpec.falsy => true
  | EdgeSpec.obj _ _ _ => true

/-- The raw JavaScript value of a present descriptor edge, as an
`EdgeStyle` observation: `prepareBorderFromCustomAddedRange` assigns the
descriptor value verbatim into the record's edge slot, so a `{}` value has
falsy `hide` and no width or color, and a falsy value such as `''` also
reads back `hide` as falsy. -/
def rawEdgeStyle : EdgeSpec → EdgeStyle
  | EdgeSpec.absent => createSingleEmptyBorder
  | EdgeSpec.falsy => { hide := false, width := none, color := none }
  | EdgeSpec.obj h w c => { hide := h.getD false, width := w, color := c }

/-- Modelled from the spec: the per-edge behaviour of
`extendDefaultBorder` of the missing `utils.js` — a present non-empty
object is merged over `createDefaultCustomBorder()`, and a present
empty/falsy value "still counts as present, use default". -/
def mergeOverDefaultCustom : EdgeSpec → EdgeStyle
  | EdgeSpec.absent => createDefaultCustomBorder
  | EdgeSpec.falsy => createDefaultCustomBorder
  | EdgeSpec.obj h w c =>
    { hide := h.getD false,
      width := some (w.getD defaultBorderWidth),
      color := some (c.getD defaultBorderColor) }

/-- Modelled from the spec: one edge of `extendDefaultBorder` — an absent
key leaves the record's existing edge value. -/
def extendEdge (current : EdgeStyle) (sp : EdgeSpec) : EdgeStyle :=
  match sp with
  | EdgeSpec.absent => current
  | _ => mergeOverDefaultCustom sp

/-- A caller-supplied border descriptor: the four optional edge keys of
the `borderObject` / configuration entry. -/
structure BorderDescriptor where
  top : EdgeSpec
  right : EdgeSpec
  bottom : EdgeSpec
  left : EdgeSpec
deriving DecidableEq, Repr

/-- The descriptor with no edge keys at all. -/
def emptyDescriptor : BorderDescriptor :=
  { top := EdgeSpec.absent, right := EdgeSpec.absent,
    bottom := EdgeSpec.absent, left := EdgeSpec.absent }

/-- Modelled from the spec: `extendDefaultBorder(record, partial)` of the
missing `utils.js`, edge keys only (the spec's section 4.1 rule). -/
def extendDefaultBorder (border : BorderRecord) (descriptor : BorderDescriptor) :
    BorderRecord :=
  { border with
    top := extendEdge border.top descriptor.top,
    right := extendEdge border.right descriptor.right,
    bottom := extendEdge border.bottom descriptor.bottom,
    left := extendEdge border.left descriptor.left }

/-- `countHide(border)` (source lines 499-509): the number of values of
the record whose `hide` is truthy — only the four edge slots can carry a
truthy `hide`. -/
def countHide (border : BorderRecord) : Nat :=
  [border.top, border.right, border.bottom, border.left].countP (fun e => e.hide)

/-- One entry of the grid's overlay collection
(`this.hot.selection.highlight.customSelections`): its `settings` object
(the border record it was created from or last merged with) and its
`cellRange`, which the entry-level `clear()` sets to `null`. -/
structure OverlayEntry where
  settings : BorderRecord
  cellRange : Option (Int × Int)
deriving DecidableEq, Repr

/-- The plugin state tracked by the embedding: the store
(`this.savedBorders`), the overlay collection, and the per-cell `borders`
metadata keyed by `(row, col)`. -/
structure PluginState where
  savedBorders : List BorderRecord
  customSelections : List OverlayEntry
  cellMeta : List ((Int × Int) × BorderRecord)
deriving DecidableEq, Repr

/-- The state of a freshly constructed plugin: `this.savedBorders = []`,
no overlay entries, no per-cell `borders` metadata. -/
def initState : PluginState :=
  { savedBorders := [], customSelections := [], cellMeta := [] }

/-- `getCellMeta(row, col).borders`. -/
def metaLookup (meta : List ((Int × Int) × BorderRecord)) (row col : Int) :
    Option BorderRecord :=
  match meta with
  | [] => none
  | e :: rest => if e.fst = (row, col) then some e.snd else metaLookup rest row col

/-- `setCellMeta(row, col, 'borders', border)`: replace the cell's entry
in place or add one. -/
def metaSet (k : Int × Int) (v : BorderRecord) :
    List ((Int × Int) × BorderRecord) → List ((Int × Int) × BorderRecord)
  | [] => [(k, v)]
  | e :: rest => if e.fst = k then (k, v) :: rest else e :: metaSet k v rest

/-- `removeCellMeta(row, col, 'borders')`: the cell's metadata is a map
keyed by `(row, col)`, so deletion drops every entry with that key. -/
def metaRemove (k : Int × Int) :
    List ((Int × Int) × BorderRecord) → List ((Int × Int) × BorderRecord)
  | [] => []
  | e :: rest => if e.fst = k then metaRemove k rest else e :: metaRemove k rest

/-- The body of `spliceBorder` (source lines 548-554): remove the first
record whose id matches, no-op when absent. -/
def spliceList (borderId : BorderId) : List BorderRecord → List BorderRecord
  | [] => []
  | r :: rest => if r.id = borderId then rest else r :: spliceList borderId rest

/-- `spliceBorder(borderId)` as a state transformer. -/
def spliceBorder (s : PluginState) (borderId : BorderId) : PluginState :=
  { s with savedBorders := spliceList borderId s.savedBorders }

/-- The replace-in-place loop of `checkSavedBorders` (source lines
574-581): replace the first record with the given id, reporting whether
one was found. -/
def replaceFirstById (b : BorderRecord) : List BorderRecord → Bool × List BorderRecord
  | [] => (false, [])
  | r :: rest =>
    if r.id = b.id then (true, b :: rest)
    else
      let p := replaceFirstById b rest
      (p.fst, r :: p.snd)

/-- `checkSavedBorders(border)` (source lines 564-585): a fully hidden
record is spliced out of the store, otherwise an existing record with the
same id is replaced in place; returns whether either case applied. -/
def checkSavedBorders (s : PluginState) (border : BorderRecord) :
    Bool × PluginState :=
  if countHide border = 4 then (true, spliceBorder s border.id)
  else
    let p := replaceFirstById border s.savedBorders
    (p.fst, { s with savedBorders := p.snd })

/-- The loop of `checkCustomSelections` (source lines 623-638): on the
first overlay entry with a matching settings id, `extend` its settings
with the full record (overwriting every field) and reset its `cellRange`;
report whether a match was found. -/
def overlayUpdateFirst (b : BorderRecord) (range : Int × Int) :
    List OverlayEntry → Bool × List OverlayEntry
  | [] => (false, [])
  | e :: rest =>
    if e.settings.id = b.id then
      (true, { settings := b, cellRange := some range } :: rest)
    else
      let p := overlayUpdateFirst b range rest
      (p.fst, e :: p.snd)

/-- The loop of `checkCustomSelectionsFromContextMenu` (source lines
596-612), observed on state: whether an overlay entry with the given
settings id exists (`toggleHiddenClass` touches rendering classes only). -/
def overlayHasId (borderId : BorderId) : List OverlayEntry → Bool
  | [] => false
  | e :: rest => if e.settings.id = borderId then true else overlayHasId borderId rest

/-- The loop of `clearBordersFromSelectionSettings` (source lines
517-525): call `.clear()` — which nulls the `cellRange` — on the first
overlay entry with a matching settings id. -/
def overlayClearFirst (borderId : BorderId) : List OverlayEntry → List OverlayEntry
  | [] => []
  | e :: rest =>
    if e.settings.id = borderId then
      { settings := e.settings, cellRange := none } :: rest
    else e :: overlayClearFirst borderId rest

/-- `clearNullCellRange` (source lines 532-540): physically remove the
first overlay entry whose `cellRange` is `null` and stop scanning. -/
def clearNullCellRange : List OverlayEntry → List OverlayEntry
  | [] => []
  | e :: rest => if e.cellRange = none then rest else e :: clearNullCellRange rest

/-- The ascending integer range `[a, a+1, ..., b]` iterated by the
`rangeEach` helper and by the source's ascending `for` loops; empty when
`a > b`. -/
def intRange (a b : Int) : List Int :=
  if a ≤ b then (List.range (b + 1 - a).toNat).map (fun i => a + i) else []

/-- One of the four edge names accepted by `setBorder`'s `place`
parameter. -/
inductive Edge where
  | top
  | right
  | bottom
  | left
deriving DecidableEq, Repr

/-- `bordersMeta[place] = value` for an edge name. -/
def setEdge (border : BorderRecord) (place : Edge) (value : EdgeStyle) : BorderRecord :=
  match place with
  | Edge.top => { border with top := value }
  | Edge.right => { border with right := value }
  | Edge.bottom => { border with bottom := value }
  | Edge.left => { border with left := value }

/-- The store phase of `insertBorderIntoSettings` (source lines 259-263):
`checkSavedBorders`, then push the record when neither eviction nor
in-place replacement applied. -/
def insertStore (s : PluginState) (border : BorderRecord) : PluginState :=
  let p := checkSavedBorders s border
  if p.fst then p.snd
  else { p.snd with savedBorders := p.snd.savedBorders ++ [border] }

/-- The overlay phase of `insertBorderIntoSettings` (source lines
265-275): `checkCustomSelections` merges into an existing entry and
resets its range to the degenerate single-cell range at the record's
coordinates; otherwise `addCustomSelection` appends a fresh entry. -/
def insertOverlay (s : PluginState) (border : BorderRecord) : PluginState :=
  let coordinates := (border.row, border.col)
  let q := overlayUpdateFirst border coordinates s.customSelections
  if q.fst then { s with customSelections := q.snd }
  else
    { s with
      customSelections :=
        s.customSelections ++ [{ settings := border, cellRange := some coordinates }] }

/-- `insertBorderIntoSettings(border)` (source lines 258-276): the store
phase followed by the overlay phase. -/
def insertBorderIntoSettings (s : PluginState) (border : BorderRecord) : PluginState :=
  insertOverlay (insertStore s border) border

/-- `removeAllBorders(row, column)` (source lines 361-370): splice the
record out of the store, clear the matching overlay entry, sweep one
null-range overlay entry, and remove the cell's `borders` metadata. -/
def removeAllBorders (s : PluginState) (row column : Int) : PluginState :=
  let borderId := createId row column
  let s1 := spliceBorder s borderId
  let s2 := { s1 with customSelections := overlayClearFirst borderId s1.customSelections }
  let s3 := { s2 with customSelections := clearNullCellRange s2.customSelections }
  { s3 with cellMeta := metaRemove (row, column) s3.cellMeta }

/-- The `bordersMeta` resolution of `setBorder` (source lines 382-386):
start from `getCellMeta(row, column).borders` when present, else from
`createEmptyBorders` — every stored record descends from
`createEmptyBorders`, so its `border` field is defined and the
`bordersMeta.border === void 0` guard reduces to the metadata being
absent. -/
def metaOrEmpty (s : PluginState) (row column : Int) : BorderRecord :=
  match metaLookup s.cellMeta row column with
  | none => createEmptyBorders row column
  | some m => m

/-- `setBorder`, continued: the shared tail of both branches — check the
overlay for a live entry (`checkCustomSelectionsFromContextMenu`), insert
into store and overlay when none was found, and write the updated record
back into the cell's metadata. -/
def setBorderApply (s : PluginState) (row column : Int) (updated : BorderRecord) :
    PluginState :=
  let s1 :=
    if overlayHasId updated.id s.customSelections then s
    else insertBorderIntoSettings s updated
  { s1 with cellMeta := metaSet (row, column) updated s1.cellMeta }

/-- `setBorder(row, column, place, remove)` (source lines 381-417). -/
def setBorder (s : PluginState) (row column : Int) (place : Edge) (remove : Bool) :
    PluginState :=
  let bordersMeta := metaOrEmpty s row column
  if remove then
    let updated := setEdge bordersMeta place createSingleEmptyBorder
    if countHide updated = 4 then removeAllBorders s row column
    else setBorderApply s row column updated
  else
    setBorderApply s row column (setEdge bordersMeta place createDefaultCustomBorder)

/-- A rectangle in the `{from: {row, col}, to: {row, col}}` shape used by
`prepareBorderFromCustomAddedRange`. -/
structure RangeDesc where
  fromRow : Int
  fromCol : Int
  toRow : Int
  toCol : Int
deriving DecidableEq, Repr

/-- The boundary `add` counter of one cell of
`prepareBorderFromCustomAddedRange` (source lines 309-345). -/
def rangeCellAdd (range : RangeDesc) (rowIndex colIndex : Int) : Nat :=
  (if rowIndex = range.fromRow then 1 else 0) +
  (if rowIndex = range.toRow then 1 else 0) +
  (if colIndex = range.fromCol then 1 else 0) +
  (if colIndex = range.toCol then 1 else 0)

/-- The border record built for one cell of
`prepareBorderFromCustomAddedRange`: starting from `createEmptyBorders`,
each descriptor edge key that is present and whose boundary condition
holds is assigned verbatim into the record. -/
def rangeCellBorder (range : RangeDesc) (d : BorderDescriptor) (rowIndex colIndex : Int) :
    BorderRecord :=
  let b0 := createEmptyBorders rowIndex colIndex
  let b1 :=
    if rowIndex = range.fromRow ∧ presentSpec d.top = true then
      { b0 with top := rawEdgeStyle d.top } else b0
  let b2 :=
    if rowIndex = range.toRow ∧ presentSpec d.bottom = true then
      { b1 with bottom := rawEdgeStyle d.bottom } else b1
  let b3 :=
    if colIndex = range.fromCol ∧ presentSpec d.left = true then
      { b2 with left := rawEdgeStyle d.left } else b2
  if colIndex = range.toCol ∧ presentSpec d.right = true then
    { b3 with right := rawEdgeStyle d.right } else b3

/-- Whether any `setCellMeta` call fires for one cell of
`prepareBorderFromCustomAddedRange`: the metadata ends up holding the
built record exactly when some present descriptor edge met its boundary
condition (the source stores the same object reference at each hit). -/
def rangeCellMetaWritten (range : RangeDesc) (d : BorderDescriptor)
    (rowIndex colIndex : Int) : Bool :=
  (decide (rowIndex = range.fromRow) && presentSpec d.top) ||
  (decide (rowIndex = range.toRow) && presentSpec d.bottom) ||
  (decide (colIndex = range.fromCol) && presentSpec d.left) ||
  (decide (colIndex = range.toCol) && presentSpec d.right)

/-- The per-cell body of `prepareBorderFromCustomAddedRange`. -/
def rangeCellStep (s : PluginState) (range : RangeDesc) (d : BorderDescriptor)
    (rowIndex colIndex : Int) : PluginState :=
  let border := rangeCellBorder range d rowIndex colIndex
  let s1 :=
    if rangeCellMetaWritten range d rowIndex colIndex then
      { s with cellMeta := metaSet (rowIndex, colIndex) border s.cellMeta }
    else s
  if 0 < rangeCellAdd range rowIndex colIndex then insertBorderIntoSettings s1 border
  else s1

/-- `prepareBorderFromCustomAddedRange(rowDecriptor, borderObject)`
(source lines 302-352), after the `rowDecriptor.range || rowDecriptor`
and `borderObject || rowDecriptor` resolution: iterate the rectangle
row-major and apply the per-cell body. -/
def prepareBorderFromCustomAddedRange (s : PluginState) (range : RangeDesc)
    (d : BorderDescriptor) : PluginState :=
  (intRange range.fromRow range.toRow).foldl
    (fun acc rowIndex =>
      (intRange range.fromCol range.toCol).foldl
        (fun acc2 colIndex => rangeCellStep acc2 range d rowIndex colIndex) acc)
    s

/-- `prepareBorderFromCustomAdded(row, column, borderDescriptor)` (source
lines 286-293): build the record by `extendDefaultBorder` over
`createEmptyBorders`, store it in the cell's metadata and insert it into
store and overlay. -/
def prepareBorderFromCustomAdded (s : PluginState) (row column : Int)
    (borderDescriptor : BorderDescriptor) : PluginState :=
  let border := extendDefaultBorder (createEmptyBorders row column) borderDescriptor
  let s1 := { s with cellMeta := metaSet (row, column) border s.cellMeta }
  insertBorderIntoSettings s1 border

/-- One element of the `selection` argument of `setBorders` /
`getBorders`: either a `[startRow, startColumn, endRow, endColumn]`
coordinate array, or a `CellRange`-shaped object handle whose
`getTopLeftCorner` / `getBottomRightCorner` normalize with min / max
while its raw `from` / `to` corners feed the range path unchanged. -/
inductive Selection where
  | coords (startRow startColumn endRow endColumn : Int)
  | handle (fromRow fromCol toRow toCol : Int)
deriving DecidableEq, Repr

/-- `setBorders(selection, borderObject)` (source lines 146-183).  A
missing `borderObject` (the `clearBorders(selection)` call path) is the
`none` case; in the range path it resolves to a descriptor with no edge
keys, matching `borderObject || rowDecriptor` since the `{from, to}`
descriptor carries no edge keys. -/
def setBorders (s : PluginState) (selection : List Selection)
    (borderObject : Option BorderDescriptor) : PluginState :=
  selection.foldl
    (fun acc cell =>
      match cell with
      | Selection.handle fr fc tr tc =>
        let topLeftRow := min fr tr
        let topLeftCol := min fc tc
        let bottomRightRow := max fr tr
        let bottomRightCol := max fc tc
        let acc1 :=
          (intRange topLeftRow bottomRightRow).foldl
            (fun a row =>
              (intRange topLeftCol bottomRightCol).foldl
                (fun a2 column => removeAllBorders a2 row column) a)
            acc
        prepareBorderFromCustomAddedRange acc1
          { fromRow := fr, fromCol := fc, toRow := tr, toCol := tc }
          (borderObject.getD emptyDescriptor)
      | Selection.coords startRow startColumn endRow endColumn =>
        if startRow = endRow ∧ startColumn = endColumn then
          prepareBorderFromCustomAdded (removeAllBorders acc startRow startColumn)
            startRow startColumn (borderObject.getD emptyDescriptor)
        else
          let acc1 :=
            (intRange startRow endRow).foldl
              (fun a row =>
                (intRange startColumn endColumn).foldl
                  (fun a2 col => removeAllBorders a2 row col) a)
              acc
          prepareBorderFromCustomAddedRange acc1
            { fromRow := startRow, fromCol := startColumn,
              toRow := endRow, toCol := endColumn }
            (borderObject.getD emptyDescriptor))
    s

/-- The inner `arrayEach(this.savedBorders, ...)` filter of `getBorders`:
every stored record whose coordinates match the cell, in store order. -/
def matchingBorders (borders : List BorderRecord) (row col : Int) : List BorderRecord :=
  borders.filter (fun b => decide (b.row = row ∧ b.col = col))

/-- `getBorders(selection)` (source lines 190-233): per selection,
enumerate the covered cells (row-major) and collect matching stored
records; overlapping selections push duplicates. -/
def getBorders (s : PluginState) (selection : List Selection) : List BorderRecord :=
  selection.foldl
    (fun acc cell =>
      match cell with
      | Selection.handle fr fc tr tc =>
        (intRange (min fr tr) (max fr tr)).foldl
          (fun l row =>
            (intRange (min fc tc) (max fc tc)).foldl
              (fun l2 column => l2 ++ matchingBorders s.savedBorders row column) l)
          acc
      | Selection.coords startRow startColumn endRow endColumn =>
        if startRow = endRow ∧ startColumn = endColumn then
          acc ++ matchingBorders s.savedBorders startRow startColumn
        else
          (intRange startRow endRow).foldl
            (fun l row =>
              (intRange startColumn endColumn).foldl
                (fun l2 col => l2 ++ matchingBorders s.savedBorders row col) l)
            acc)
    []

/-- The per-record body of the no-argument `clearBorders` (source lines
242-245): desynchronize the record's overlay entry and remove its
per-cell metadata. -/
def clearBorderStep (acc : PluginState) (border : BorderRecord) : PluginState :=
  let acc1 := { acc with customSelections := overlayClearFirst border.id acc.customSelections }
  { acc1 with cellMeta := metaRemove (border.row, border.col) acc1.cellMeta }

/-- `clearBorders(selection)` (source lines 240-250): with no selection,
run `clearBorderStep` for every stored record (the store list itself is
not modified by the loop body); with a selection, delegate to
`setBorders(selection)` with no border object. -/
def clearBorders (s : PluginState) (selection : Option (List Selection)) : PluginState :=
  match selection with
  | none => s.savedBorders.foldl clearBorderStep s
  | some sel => setBorders s sel none

/-- One of the five places accepted by `prepareBorder`. -/
inductive MenuPlace where
  | top
  | right
  | bottom
  | left
  | noBorders
deriving DecidableEq, Repr

/-- One element of `prepareBorder`'s `selected` argument: a
`{start: {row, col}, end: {row, col}}` selection rectangle. -/
structure SelRange where
  startRow : Int
  startCol : Int
  endRow : Int
  endCol : Int
deriving DecidableEq, Repr

/-- `prepareBorder(selected, place, remove)` (source lines 427-474): a
point selection dispatches to `removeAllBorders` or `setBorder`; a proper
rectangle applies `noBorders` to every cell (columns outer, rows inner)
or the named edge to the cells of that edge of the rectangle. -/
def prepareBorder (s : PluginState) (selected : List SelRange) (place : MenuPlace)
    (remove : Bool) : PluginState :=
  selected.foldl
    (fun acc sel =>
      if sel.startRow = sel.endRow ∧ sel.startCol = sel.endCol then
        match place with
        | MenuPlace.noBorders => removeAllBorders acc sel.startRow sel.startCol
        | MenuPlace.top => setBorder acc sel.startRow sel.startCol Edge.top remove
        | MenuPlace.right => setBorder acc sel.startRow sel.startCol Edge.right remove
        | MenuPlace.bottom => setBorder acc sel.startRow sel.startCol Edge.bottom remove
        | MenuPlace.left => setBorder acc sel.startRow sel.startCol Edge.left remove
      else
        match place with
        | MenuPlace.noBorders =>
          (intRange sel.startCol sel.endCol).foldl
            (fun a colIndex =>
              (intRange sel.startRow sel.endRow).foldl
                (fun a2 rowIndex => removeAllBorders a2 rowIndex colIndex) a)
            acc
        | MenuPlace.top =>
          (intRange sel.startCol sel.endCol).foldl
            (fun a topCol => setBorder a sel.startRow topCol Edge.top remove) acc
        | MenuPlace.right =>
          (intRange sel.startRow sel.endRow).foldl
            (fun a rowRight => setBorder a rowRight sel.endCol Edge.right remove) acc
        | MenuPlace.bottom =>
          (intRange sel.startCol sel.endCol).foldl
            (fun a bottomCol => setBorder a sel.endRow bottomCol Edge.bottom remove) acc
        | MenuPlace.left =>
          (intRange sel.startRow sel.endRow).foldl
            (fun a rowLeft => setBorder a rowLeft sel.startCol Edge.left remove) acc)
    s

/-- One entry of the `customBorders` configuration array: either a
`range`-shaped declarative entry or a single-cell `{row, col, ...edges}`
entry. -/
structure ConfigEntry where
  range : Option RangeDesc
  row : Int
  col : Int
  descriptor : BorderDescriptor
deriving DecidableEq, Repr

/-- `createCustomBorders(customBorders)` (source lines 482-491). -/
def createCustomBorders (s : PluginState) (customBorders : List ConfigEntry) :
    PluginState :=
  customBorders.foldl
    (fun acc cb =>
      match cb.range with
      | some r => prepareBorderFromCustomAddedRange acc r cb.descriptor
      | none => prepareBorderFromCustomAdded acc cb.row cb.col cb.descriptor)
    s

/-- A stored border record reused as a configuration entry: the
`createCustomBorders(this.savedBorders)` call passes records directly, so
each edge slot arrives as a present object carrying the record's `hide` /
`width` / `color` values. -/
def recordToConfigEntry (b : BorderRecord) : ConfigEntry :=
  { range := none, row := b.row, col := b.col,
    descriptor :=
      { top := EdgeSpec.obj (some b.top.hide) b.top.width b.top.color,
        right := EdgeSpec.obj (some b.right.hide) b.right.width b.right.color,
        bottom := EdgeSpec.obj (some b.bottom.hide) b.bottom.width b.bottom.color,
        left := EdgeSpec.obj (some b.left.hide) b.left.width b.left.color } }

/-- The value of the `customBorders` setting read by
`changeBorderSettings`: missing, a boolean flag, or a declarative entry
array. -/
inductive CustomBordersSetting where
  | undefinedSetting
  | boolSetting (enabled : Bool)
  | arraySetting (entries : List ConfigEntry)
deriving DecidableEq, Repr

/-- `changeBorderSettings()` (source lines 645-658): with an array
setting, an empty array resets `savedBorders` before `createCustomBorders`
runs; with any other defined setting the retained `savedBorders` records
are re-applied through `createCustomBorders`. -/
def changeBorderSettings (s : PluginState) (setting : CustomBordersSetting) :
    PluginState :=
  match setting with
  | CustomBordersSetting.arraySetting entries =>
    let s1 := if entries = [] then { s with savedBorders := [] } else s
    createCustomBorders s1 entries
  | CustomBordersSetting.boolSetting _ =>
    createCustomBorders s (s.savedBorders.map recordToConfigEntry)
  | CustomBordersSetting.undefinedSetting => s

/-- `updatePlugin()` (source lines 131-138): `disablePlugin` runs the
no-argument `clearBorders`, `enablePlugin` only re-registers hooks, then
`changeBorderSettings` re-applies the configuration. -/
def updatePlugin (s : PluginState) (setting : CustomBordersSetting) : PluginState :=
  changeBorderSettings (clearBorders s none) setting

/-- The store part of the spec's invariant: no stored record has all four
edges hidden. -/
def StoreInv (s : PluginState) : Prop :=
  ∀ b ∈ s.savedBorders, countHide b ≠ 4

/-- The stored records carry the id derived from their coordinates (every
record built by the plugin does, via `createEmptyBorders`). -/
def StoreIdsMatch (s : PluginState) : Prop :=
  ∀ b ∈ s.savedBorders, b.id = createId b.row b.col

/-- The store holds at most one record per id (spec section 3: "unique by
`id`"). -/
def StoreIdsNodup (s : PluginState) : Prop :=
  (s.savedBorders.map (fun b => b.id)).Nodup

/-- The overlay collection holds at most one entry per settings id. -/
def OverlayIdsNodup (s : PluginState) : Prop :=
  (s.customSelections.map (fun e => e.settings.id)).Nodup

/-- No overlay entry is in the cleared (null `cellRange`) limbo state. -/
def NoNullOverlay (s : PluginState) : Prop :=
  ∀ e ∈ s.customSelections, e.cellRange ≠ none

/-- Per-cell metadata records carry the id derived from their cell's
coordinates (every record the plugin stores there does). -/
def MetaIdsMatch (s : PluginState) : Prop :=
  ∀ e ∈ s.cellMeta, e.snd.id = createId e.fst.fst e.fst.snd

instance (s : PluginState) : Decidable (StoreInv s) := by
  unfold StoreInv; infer_instance

instance (s : PluginState) : Decidable (StoreIdsMatch s) := by
  unfold StoreIdsMatch; infer_instance

instance (s : PluginState) : Decidable (StoreIdsNodup s) := by
  unfold StoreIdsNodup; infer_instance

instance (s : PluginState) : Decidable (OverlayIdsNodup s) := by
  unfold OverlayIdsNodup; infer_instance

instance (s : PluginState) : Decidable (NoNullOverlay s) := by
  unfold NoNullOverlay; infer_instance

instance (s : PluginState) : Decidable (MetaIdsMatch s) := by
  unfold MetaIdsMatch; infer_instance

/-- The first overlay entry with the given settings id (if any) is
already cleared. -/
def firstCleared (borderId : BorderId) : List OverlayEntry → Prop
  | [] => True
  | e :: rest =>
    if e.settings.id = borderId then e.cellRange = none else firstCleared borderId rest

/-- The stored records with a given id, in store order. -/
def storeWithId (l : List BorderRecord) (borderId : BorderId) : List BorderRecord :=
  l.filter (fun b => decide (b.id = borderId))

/-- The overlay entries with a given settings id, in collection order. -/
def overlayWithId (l : List OverlayEntry) (borderId : BorderId) : List OverlayEntry :=
  l.filter (fun e => decide (e.settings.id = borderId))

/-- The record that re-applying a retained store record through
`createCustomBorders(this.savedBorders)` produces for its cell. -/
def reapplyBorder (b : BorderRecord) : BorderRecord :=
  extendDefaultBorder (createEmptyBorders b.row b.col) (recordToConfigEntry b).descriptor

/-- A border object mentioning only the `top` edge, as an empty object. -/
def topOnlyDescriptor : BorderDescriptor :=
  { top := EdgeSpec.obj none none none, right := EdgeSpec.absent,
    bottom := EdgeSpec.absent, left := EdgeSpec.absent }

/-- The state after setting a top border on the single cell (0, 0). -/
def exampleState : PluginState :=
  setBorders initState [Selection.coords 0 0 0 0] (some topOnlyDescriptor)

theorem foldl_pres {β α : Type} (P : β → Prop) (f : β → α → β)
    (h : ∀ s a, P s → P (f s a)) :
    ∀ (l : List α) (s : β), P s → P (l.foldl f s) := by
  intro l
  induction l with
  | nil => intro s hs; exact hs
  | cons a t ih => intro s hs; exact ih _ (h _ _ hs)

theorem mem_spliceList {b : BorderRecord} {borderId : BorderId} :
    ∀ {l : List BorderRecord}, b ∈ spliceList borderId l → b ∈ l := by
  intro l
  induction l with
  | nil => intro h; exact absurd h (List.not_mem_nil b)
  | cons r rest ih =>
    intro h
    simp only [spliceList] at h
    by_cases hid : r.id = borderId
    · simp [hid] at h
      exact List.mem_cons_of_mem r h
    · simp [hid] at h
      rcases h with h | h
      · exact h ▸ List.mem_cons_self r rest
      · exact List.mem_cons_of_mem r (ih h)

theorem mem_replaceFirstById {b r : BorderRecord} :
    ∀ {l : List BorderRecord}, b ∈ (replaceFirstById r l).snd → b = r ∨ b ∈ l := by
  intro l
  induction l with
  | nil => intro h; simp [replaceFirstById] at h
  | cons x rest ih =>
    intro h
    simp only [replaceFirstById] at h
    by_cases hid : x.id = r.id
    · simp [hid] at h
      rcases h with h | h
      · exact Or.inl h
      · exact Or.inr (List.mem_cons_of_mem x h)
    · simp [hid] at h
      rcases h with h | h
      · exact Or.inr (h ▸ List.mem_cons_self x rest)
      · rcases ih h with h2 | h2
        · exact Or.inl h2
        · exact Or.inr (List.mem_cons_of_mem x h2)

theorem insertOverlay_savedBorders (s : PluginState) (b : BorderRecord) :
    (insertOverlay s b).savedBorders = s.savedBorders := by
  simp only [insertOverlay]
  split <;> rfl

theorem insertOverlay_cellMeta (s : PluginState) (b : BorderRecord) :
    (insertOverlay s b).cellMeta = s.cellMeta := by
  simp only [insertOverlay]
  split <;> rfl

theorem insertStore_cellMeta (s : PluginState) (b : BorderRecord) :
    (insertStore s b).cellMeta = s.cellMeta := by
  simp only [insertStore, checkSavedBorders, spliceBorder]
  by_cases hc : countHide b = 4 <;> simp [hc] <;> split <;> rfl

theorem insertStore_customSelections (s : PluginState) (b : BorderRecord) :
    (insertStore s b).customSelections = s.customSelections := by
  simp only [insertStore, checkSavedBorders, spliceBorder]
  by_cases hc : countHide b = 4 <;> simp [hc] <;> split <;> rfl

theorem insertStore_savedBorders (s : PluginState) (b : BorderRecord) :
    (insertStore s b).savedBorders =
      if countHide b = 4 then spliceList b.id s.savedBorders
      else if (replaceFirstById b s.savedBorders).fst then
        (replaceFirstById b s.savedBorders).snd
      else (replaceFirstById b s.savedBorders).snd ++ [b] := by
  simp only [insertStore, checkSavedBorders, spliceBorder]
  by_cases hc : countHide b = 4
  · simp [hc]
  · simp only [hc, ite_false, if_false]
    split <;> rfl

theorem insert_savedBorders_mem {x : BorderRecord} {s : PluginState} {b : BorderRecord}
    (h : x ∈ (insertBorderIntoSettings s b).savedBorders) :
    (x = b ∧ countHide b ≠ 4) ∨ x ∈ s.savedBorders := by
  rw [insertBorderIntoSettings, insertOverlay_savedBorders, insertStore_savedBorders] at h
  by_cases hc : countHide b = 4
  · rw [if_pos hc] at h
    exact Or.inr (mem_spliceList h)
  · rw [if_neg hc] at h
    split at h
    · rcases mem_replaceFirstById h with h2 | h2
      · exact Or.inl ⟨h2, hc⟩
      · exact Or.inr h2
    · rcases List.mem_append.mp h with h2 | h2
      · rcases mem_replaceFirstById h2 with h3 | h3
        · exact Or.inl ⟨h3, hc⟩
        · exact Or.inr h3
      · simp at h2
        exact Or.inl ⟨h2, hc⟩

theorem storeInv_insert {s : PluginState} (b : BorderRecord) (h : StoreInv s) :
    StoreInv (insertBorderIntoSettings s b) := by
  intro x hx
  rcases insert_savedBorders_mem hx with ⟨rfl, h4⟩ | hx2
  · exact h4
  · exact h x hx2

theorem storeInv_removeAllBorders {s : PluginState} (row column : Int) (h : StoreInv s) :
    StoreInv (removeAllBorders s row column) := by
  intro x hx
  simp only [removeAllBorders, spliceBorder] at hx
  exact h x (mem_spliceList hx)

theorem storeInv_setBorderApply {s : PluginState} (row column : Int)
    (updated : BorderRecord) (h : StoreInv s) :
    StoreInv (setBorderApply s row column updated) := by
  simp only [setBorderApply]
  intro x hx
  split at hx
  · exact h x hx
  · exact storeInv_insert _ h x hx

theorem storeInv_setBorder {s : PluginState} (row column : Int) (place : Edge)
    (remove : Bool) (h : StoreInv s) : StoreInv (setBorder s row column place remove) := by
  simp only [setBorder]
  split
  · split
    · exact storeInv_removeAllBorders _ _ h
    · exact storeInv_setBorderApply _ _ _ h
  · exact storeInv_setBorderApply _ _ _ h

theorem storeInv_rangeCellStep {s : PluginState} (range : RangeDesc)
    (d : BorderDescriptor) (ri ci : Int) (h : StoreInv s) :
    StoreInv (rangeCellStep s range d ri ci) := by
  have h1 : StoreInv (if rangeCellMetaWritten range d ri ci = true then
      { s with cellMeta := metaSet (ri, ci) (rangeCellBorder range d ri ci) s.cellMeta }
    else s) := by
    split
    · exact h
    · exact h
  simp only [rangeCellStep]
  split
  · exact storeInv_insert _ h1
  · exact h1

theorem storeInv_prepareRange {s : PluginState} (range : RangeDesc)
    (d : BorderDescriptor) (h : StoreInv s) :
    StoreInv (prepareBorderFromCustomAddedRange s range d) := by
  simp only [prepareBorderFromCustomAddedRange]
  exact foldl_pres _ _
    (fun s2 r hr => foldl_pres _ _
      (fun s3 c hc => storeInv_rangeCellStep _ _ _ _ hc) _ _ hr) _ _ h

theorem storeInv_prepareAdded {s : PluginState} (row column : Int)
    (d : BorderDescriptor) (h : StoreInv s) :
    StoreInv (prepareBorderFromCustomAdded s row column d) := by
  simp only [prepareBorderFromCustomAdded]
  exact storeInv_insert _ h

theorem storeInv_removeFold {s : PluginState} (rows cols : List Int) (h : StoreInv s) :
    StoreInv (rows.foldl
      (fun a row => cols.foldl (fun a2 column => removeAllBorders a2 row column) a) s) :=
  foldl_pres _ _
    (fun s2 r hr => foldl_pres _ _
      (fun s3 c hc => storeInv_removeAllBorders _ _ hc) _ _ hr) _ _ h

theorem storeInv_setBorders {s : PluginState} (sel : List Selection)
    (d : Option BorderDescriptor) (h : StoreInv s) : StoreInv (setBorders s sel d) := by
  simp only [setBorders]
  apply foldl_pres _ _ _ _ _ h
  intro s2 cell hs2
  cases cell with
  | coords sr sc er ec =>
    dsimp only
    split
    · exact storeInv_prepareAdded _ _ _ (storeInv_removeAllBorders _ _ hs2)
    · exact storeInv_prepareRange _ _ (storeInv_removeFold _ _ hs2)
  | handle fr fc tr tc =>
    exact storeInv_prepareRange _ _ (storeInv_removeFold _ _ hs2)

theorem storeInv_clearBorders {s : PluginState} (sel : Option (List Selection))
    (h : StoreInv s) : StoreInv (clearBorders s sel) := by
  match sel with
  | none =>
    simp only [clearBorders]
    apply foldl_pres _ _ _ _ _ h
    intro s2 b hs2
    intro x hx
    exact hs2 x hx
  | some sel2 => exact storeInv_setBorders _ _ h

theorem storeInv_prepareBorder {s : PluginState} (selected : List SelRange)
    (place : MenuPlace) (remove : Bool) (h : StoreInv s) :
    StoreInv (prepareBorder s selected place remove) := by
  simp only [prepareBorder]
  apply foldl_pres _ _ _ _ _ h
  intro s2 sel hs2
  split
  · match place with
    | MenuPlace.noBorders => exact storeInv_removeAllBorders _ _ hs2
    | MenuPlace.top => exact storeInv_setBorder _ _ _ _ hs2
    | MenuPlace.right => exact storeInv_setBorder _ _ _ _ hs2
    | MenuPlace.bottom => exact storeInv_setBorder _ _ _ _ hs2
    | MenuPlace.left => exact storeInv_setBorder _ _ _ _ hs2
  · match place with
    | MenuPlace.noBorders =>
      exact foldl_pres _ _
        (fun s3 c hc => foldl_pres _ _
          (fun s4 r hr => storeInv_removeAllBorders _ _ hr) _ _ hc) _ _ hs2
    | MenuPlace.top =>
      exact foldl_pres _ _ (fun s3 c hc => storeInv_setBorder _ _ _ _ hc) _ _ hs2
    | MenuPlace.right =>
      exact foldl_pres _ _ (fun s3 r hr => storeInv_setBorder _ _ _ _ hr) _ _ hs2
    | MenuPlace.bottom =>
      exact foldl_pres _ _ (fun s3 c hc => storeInv_setBorder _ _ _ _ hc) _ _ hs2
    | MenuPlace.left =>
      exact foldl_pres _ _ (fun s3 r hr => storeInv_setBorder _ _ _ _ hr) _ _ hs2

theorem storeInv_createCustomBorders {s : PluginState} (cfg : List ConfigEntry)
    (h : StoreInv s) : StoreInv (createCustomBorders s cfg) := by
  simp only [createCustomBorders]
  apply foldl_pres _ _ _ _ _ h
  intro s2 cb hs2
  match hr : cb.range with
  | some r => simp only [hr]; exact storeInv_prepareRange _ _ hs2
  | none => simp only [hr]; exact storeInv_prepareAdded _ _ _ hs2

/-- C1: after any of the public operations — `setBorders`, `clearBorders`
(`getBorders` does not change state), the context-menu path
`prepareBorder` / `setBorder`, and configuration initialization via
`createCustomBorders` — the store `savedBorders` contains no record whose
four edges all have `hide = true`, provided it contained none before; the
initial store trivially satisfies the invariant, so it holds in every
reachable state. -/
theorem c1_no_fully_hidden_record_in_store (s : PluginState) (hs : StoreInv s)
    (sel1 : List Selection) (d1 : Option BorderDescriptor)
    (sel2 : Option (List Selection)) (selp : List SelRange) (place : MenuPlace)
    (rm : Bool) (row col : Int) (e : Edge) (cfg : List ConfigEntry) :
    StoreInv initState ∧
    StoreInv (setBorders s sel1 d1) ∧
    StoreInv (clearBorders s sel2) ∧
    StoreInv (prepareBorder s selp place rm) ∧
    StoreInv (setBorder s row col e rm) ∧
    StoreInv (createCustomBorders s cfg) :=
  ⟨fun b hb => absurd hb (List.not_mem_nil b),
   storeInv_setBorders sel1 d1 hs,
   storeInv_clearBorders sel2 hs,
   storeInv_prepareBorder selp place rm hs,
   storeInv_setBorder row col e rm hs,
   storeInv_createCustomBorders cfg hs⟩

/-- Witness for C1 at a concrete state and concrete operations. -/
theorem c1_no_fully_hidden_record_in_store_witness :
    StoreInv initState ∧
    StoreInv (setBorders exampleState [Selection.coords 2 2 2 3] (some topOnlyDescriptor)) ∧
    StoreInv (clearBorders exampleState none) ∧
    StoreInv (prepareBorder exampleState
      [{ startRow := 0, startCol := 0, endRow := 1, endCol := 1 }] MenuPlace.top false) ∧
    StoreInv (setBorder exampleState 0 0 Edge.right true) ∧
    StoreInv (createCustomBorders exampleState
      [{ range := none, row := 3, col := 3, descriptor := topOnlyDescriptor }]) :=
  c1_no_fully_hidden_record_in_store exampleState (by decide)
    [Selection.coords 2 2 2 3] (some topOnlyDescriptor) none
    [{ startRow := 0, startCol := 0, endRow := 1, endCol := 1 }] MenuPlace.top false
    0 0 Edge.right
    [{ range := none, row := 3, col := 3, descriptor := topOnlyDescriptor }]

theorem metaLookup_metaSet_self (m : List ((Int × Int) × BorderRecord))
    (r c : Int) (v : BorderRecord) : metaLookup (metaSet (r, c) v m) r c = some v := by
  induction m with
  | nil => simp [metaSet, metaLookup]
  | cons e rest ih =>
    by_cases hk : e.fst = (r, c)
    · simp [metaSet, hk, metaLookup]
    · simp [metaSet, hk, metaLookup, ih]

theorem metaLookup_metaSet_other (m : List ((Int × Int) × BorderRecord))
    (k : Int × Int) (r c : Int) (v : BorderRecord) (h : k ≠ (r, c)) :
    metaLookup (metaSet k v m) r c = metaLookup m r c := by
  induction m with
  | nil => simp [metaSet, metaLookup, h]
  | cons e rest ih =>
    by_cases hk : e.fst = k
    · simp [metaSet, hk, metaLookup, h]
    · simp only [metaSet, hk, ite_false, if_false, metaLookup, ih]

theorem metaLookup_metaRemove_self (m : List ((Int × Int) × BorderRecord))
    (r c : Int) : metaLookup (metaRemove (r, c) m) r c = none := by
  induction m with
  | nil => rfl
  | cons e rest ih =>
    by_cases hk : e.fst = (r, c)
    · simp [metaRemove, hk, ih]
    · simp [metaRemove, hk, metaLookup, ih]

theorem metaLookup_metaRemove_other (m : List ((Int × Int) × BorderRecord))
    (k : Int × Int) (r c : Int) (h : k ≠ (r, c)) :
    metaLookup (metaRemove k m) r c = metaLookup m r c := by
  induction m with
  | nil => rfl
  | cons e rest ih =>
    by_cases hk : e.fst = k
    · simp [metaRemove, hk, metaLookup, h, ih]
    · simp only [metaRemove, hk, ite_false, if_false, metaLookup, ih]

theorem metaLookup_metaRemove_none (m : List ((Int × Int) × BorderRecord))
    (k : Int × Int) (r c : Int) (h : metaLookup m r c = none) :
    metaLookup (metaRemove k m) r c = none := by
  by_cases hk : k = (r, c)
  · rw [hk]; exact metaLookup_metaRemove_self m r c
  · rw [metaLookup_metaRemove_other m k r c hk]; exact h

theorem overlayClearFirst_settings (borderId : BorderId) :
    ∀ l : List OverlayEntry,
      (overlayClearFirst borderId l).map (fun e => e.settings) =
        l.map (fun e => e.settings) := by
  intro l
  induction l with
  | nil => rfl
  | cons e rest ih =>
    by_cases hid : e.settings.id = borderId
    · simp [overlayClearFirst, hid]
    · simp [overlayClearFirst, hid, ih]

theorem overlayClearFirst_ids (borderId : BorderId) (l : List OverlayEntry) :
    (overlayClearFirst borderId l).map (fun e => e.settings.id) =
      l.map (fun e => e.settings.id) := by
  have h := overlayClearFirst_settings borderId l
  have h2 := congrArg (List.map (fun b : BorderRecord => b.id)) h
  simpa [List.map_map, Function.comp] using h2

theorem overlayClearFirst_pres_cleared {borderId other : BorderId} :
    ∀ l : List OverlayEntry,
      (∀ e ∈ l, e.settings.id = borderId → e.cellRange = none) →
      ∀ e ∈ overlayClearFirst other l, e.settings.id = borderId → e.cellRange = none := by
  intro l
  induction l with
  | nil => intro _ e he; exact absurd he (List.not_mem_nil e)
  | cons x rest ih =>
    intro h e he hid
    by_cases hx : x.settings.id = other
    · simp only [overlayClearFirst, hx, ite_true, if_true, List.mem_cons] at he
      rcases he with rfl | he
      · rfl
      · exact h e (List.mem_cons_of_mem x he) hid
    · simp only [overlayClearFirst, hx, ite_false, if_false, List.mem_cons] at he
      rcases he with rfl | he
      · exact h e (List.mem_cons_self _ _) hid
      · exact ih (fun e2 he2 => h e2 (List.mem_cons_of_mem x he2)) e he hid

theorem overlayClearFirst_clears {borderId : BorderId} :
    ∀ l : List OverlayEntry, (l.map (fun e => e.settings.id)).Nodup →
      ∀ e ∈ overlayClearFirst borderId l, e.settings.id = borderId → e.cellRange = none := by
  intro l
  induction l with
  | nil => intro _ e he; exact absurd he (List.not_mem_nil e)
  | cons x rest ih =>
    intro hnd e he hid
    simp only [List.map_cons, List.nodup_cons] at hnd
    by_cases hx : x.settings.id = borderId
    · simp only [overlayClearFirst, hx, ite_true, if_true, List.mem_cons] at he
      rcases he with rfl | he
      · rfl
      · have hmem : e.settings.id ∈ rest.map (fun e2 => e2.settings.id) :=
          List.mem_map.mpr ⟨e, he, rfl⟩
        rw [hid, ← hx] at hmem
        exact absurd hmem hnd.1
    · simp only [overlayClearFirst, hx, ite_false, if_false, List.mem_cons] at he
      rcases he with rfl | he
      · exact absurd hid hx
      · exact ih hnd.2 e he hid

theorem clearBorderStep_savedBorders (acc : PluginState) (b : BorderRecord) :
    (clearBorderStep acc b).savedBorders = acc.savedBorders := rfl

theorem clearBorderStep_customSelections (acc : PluginState) (b : BorderRecord) :
    (clearBorderStep acc b).customSelections =
      overlayClearFirst b.id acc.customSelections := rfl

theorem clearBorderStep_cellMeta (acc : PluginState) (b : BorderRecord) :
    (clearBorderStep acc b).cellMeta = metaRemove (b.row, b.col) acc.cellMeta := rfl

theorem clearFold_savedBorders :
    ∀ (l : List BorderRecord) (acc : PluginState),
      (l.foldl clearBorderStep acc).savedBorders = acc.savedBorders := by
  intro l
  induction l with
  | nil => intro acc; rfl
  | cons b t ih => intro acc; rw [List.foldl_cons, ih]; rfl

theorem clearFold_settings :
    ∀ (l : List BorderRecord) (acc : PluginState),
      (l.foldl clearBorderStep acc).customSelections.map (fun e => e.settings) =
        acc.customSelections.map (fun e => e.settings) := by
  intro l
  induction l with
  | nil => intro acc; rfl
  | cons b t ih =>
    intro acc
    rw [List.foldl_cons, ih, clearBorderStep_customSelections,
      overlayClearFirst_settings]

theorem clearFold_ids :
    ∀ (l : List BorderRecord) (acc : PluginState),
      (l.foldl clearBorderStep acc).customSelections.map (fun e => e.settings.id) =
        acc.customSelections.map (fun e => e.settings.id) := by
  intro l
  induction l with
  | nil => intro acc; rfl
  | cons b t ih =>
    intro acc
    rw [List.foldl_cons, ih, clearBorderStep_customSelections, overlayClearFirst_ids]

theorem clearFold_meta_none :
    ∀ (l : List BorderRecord) (acc : PluginState) (r c : Int),
      metaLookup acc.cellMeta r c = none →
      metaLookup ((l.foldl clearBorderStep acc).cellMeta) r c = none := by
  intro l
  induction l with
  | nil => intro acc r c h; exact h
  | cons b t ih =>
    intro acc r c h
    rw [List.foldl_cons]
    exact ih _ _ _ (by rw [clearBorderStep_cellMeta]
                       exact metaLookup_metaRemove_none _ _ _ _ h)

theorem clearFold_meta_clears :
    ∀ (l : List BorderRecord) (acc : PluginState),
      ∀ b ∈ l, metaLookup ((l.foldl clearBorderStep acc).cellMeta) b.row b.col = none := by
  intro l
  induction l with
  | nil => intro acc b hb; exact absurd hb (List.not_mem_nil b)
  | cons b0 t ih =>
    intro acc b hb
    rw [List.foldl_cons]
    rcases List.mem_cons.mp hb with rfl | hb2
    · exact clearFold_meta_none t _ b.row b.col
        (by rw [clearBorderStep_cellMeta]; exact metaLookup_metaRemove_self _ _ _)
    · exact ih _ b hb2

theorem clearFold_overlay_pres :
    ∀ (l : List BorderRecord) (acc : PluginState) (borderId : BorderId),
      (∀ e ∈ acc.customSelections, e.settings.id = borderId → e.cellRange = none) →
      ∀ e ∈ (l.foldl clearBorderStep acc).customSelections,
        e.settings.id = borderId → e.cellRange = none := by
  intro l
  induction l with
  | nil => intro acc borderId h; exact h
  | cons b t ih =>
    intro acc borderId h
    rw [List.foldl_cons]
    exact ih _ _ (by rw [clearBorderStep_customSelections]
                     exact overlayClearFirst_pres_cleared _ h)

theorem clearFold_overlay_clears :
    ∀ (l : List BorderRecord) (acc : PluginState),
      (acc.customSelections.map (fun e => e.settings.id)).Nodup →
      ∀ b ∈ l, ∀ e ∈ (l.foldl clearBorderStep acc).customSelections,
        e.settings.id = b.id → e.cellRange = none := by
  intro l
  induction l with
  | nil => intro acc hnd b hb; exact absurd hb (List.not_mem_nil b)
  | cons b0 t ih =>
    intro acc hnd b hb
    rw [List.foldl_cons]
    rcases List.mem_cons.mp hb with rfl | hb2
    · apply clearFold_overlay_pres
      rw [clearBorderStep_customSelections]
      exact overlayClearFirst_clears _ hnd
    · apply ih _ _ b hb2
      rw [clearBorderStep_customSelections, overlayClearFirst_ids]
      exact hnd

/-- C2 counterexample: after `setBorders` on the single cell (0, 0), the
no-argument `clearBorders` leaves the store still holding that record —
it does not "evict every record from the store" and the store does not
"hold zero records". -/
theorem c2_full_reset_counterexample :
    (clearBorders exampleState none).savedBorders ≠ [] := by decide

/-- C2 amended: the no-argument `clearBorders` desynchronizes every stored
record's overlay entry (its `cellRange` becomes `null`, the entry itself
staying in the collection) and removes every stored record's per-cell
`borders` metadata, but it evicts nothing from the store: `savedBorders`
is left exactly as it was. -/
theorem c2_clear_borders_desyncs_but_keeps_store (s : PluginState)
    (hov : OverlayIdsNodup s) :
    (clearBorders s none).savedBorders = s.savedBorders ∧
    ((clearBorders s none).customSelections.map (fun e => e.settings) =
      s.customSelections.map (fun e => e.settings)) ∧
    (∀ b ∈ s.savedBorders,
      metaLookup (clearBorders s none).cellMeta b.row b.col = none) ∧
    (∀ b ∈ s.savedBorders, ∀ e ∈ (clearBorders s none).customSelections,
      e.settings.id = b.id → e.cellRange = none) := by
  refine ⟨clearFold_savedBorders _ _, clearFold_settings _ _, ?_, ?_⟩
  · exact clearFold_meta_clears _ _
  · exact clearFold_overlay_clears _ _ hov

/-- Witness for C2's amended theorem at a concrete state. -/
theorem c2_clear_borders_desyncs_but_keeps_store_witness :
    (clearBorders exampleState none).savedBorders = exampleState.savedBorders ∧
    ((clearBorders exampleState none).customSelections.map (fun e => e.settings) =
      exampleState.customSelections.map (fun e => e.settings)) ∧
    (∀ b ∈ exampleState.savedBorders,
      metaLookup (clearBorders exampleState none).cellMeta b.row b.col = none) ∧
    (∀ b ∈ exampleState.savedBorders,
      ∀ e ∈ (clearBorders exampleState none).customSelections,
        e.settings.id = b.id → e.cellRange = none) :=
  c2_clear_borders_desyncs_but_keeps_store exampleState (by decide)

theorem overlayHasId_append_self (borderId : BorderId) (e : OverlayEntry)
    (he : e.settings.id = borderId) :
    ∀ l : List OverlayEntry, overlayHasId borderId (l ++ [e]) = true := by
  intro l
  induction l with
  | nil => simp [overlayHasId, he]
  | cons x rest ih =>
    by_cases hx : x.settings.id = borderId
    · simp [overlayHasId, hx]
    · simp only [List.cons_append, overlayHasId, hx, ite_false, if_false]
      exact ih

theorem overlayUpdateFirst_found_hasId (b : BorderRecord) (range : Int × Int) :
    ∀ l : List OverlayEntry, (overlayUpdateFirst b range l).fst = true →
      overlayHasId b.id (overlayUpdateFirst b range l).snd = true := by
  intro l
  induction l with
  | nil => intro h; simp [overlayUpdateFirst] at h
  | cons x rest ih =>
    intro h
    by_cases hx : x.settings.id = b.id
    · simp [overlayUpdateFirst, hx, overlayHasId]
    · simp only [overlayUpdateFirst, hx, ite_false, if_false] at h ⊢
      simp only [overlayHasId, hx, ite_false, if_false]
      exact ih h

theorem overlayHasId_insert (s : PluginState) (b : BorderRecord) :
    overlayHasId b.id (insertBorderIntoSettings s b).customSelections = true := by
  rw [insertBorderIntoSettings]
  simp only [insertOverlay]
  split
  · next h => exact overlayUpdateFirst_found_hasId b _ _ h
  · exact overlayHasId_append_self b.id _ rfl _

theorem spliceList_not_mem_id {borderId : BorderId} :
    ∀ l : List BorderRecord, (l.map (fun b => b.id)).Nodup →
      borderId ∉ (spliceList borderId l).map (fun b => b.id) := by
  intro l
  induction l with
  | nil => intro _ h; exact absurd h (List.not_mem_nil borderId)
  | cons r rest ih =>
    intro hnd
    simp only [List.map_cons, List.nodup_cons] at hnd
    by_cases hr : r.id = borderId
    · simp only [spliceList, hr, ite_true, if_true]
      intro hmem
      exact hnd.1 (hr ▸ hmem)
    · simp only [spliceList, hr, ite_false, if_false, List.map_cons, List.mem_cons]
      intro hmem
      rcases hmem with hmem | hmem
      · exact hr hmem.symm
      · exact ih hnd.2 hmem

theorem replaceFirst_found_mem (b : BorderRecord) :
    ∀ l : List BorderRecord, (replaceFirstById b l).fst = true →
      b ∈ (replaceFirstById b l).snd := by
  intro l
  induction l with
  | nil => intro h; simp [replaceFirstById] at h
  | cons r rest ih =>
    intro h
    by_cases hr : r.id = b.id
    · simp [replaceFirstById, hr]
    · simp only [replaceFirstById, hr, ite_false, if_false] at h ⊢
      exact List.mem_cons_of_mem r (ih h)

/-- C3 counterexample: `setBorders` over the two-cell range (0,0)-(0,1)
with a border object carrying no edge keys leaves the store empty while
creating two live overlay entries — the set of store ids and the set of
live overlay ids diverge. -/
theorem c3_store_overlay_sync_counterexample :
    (setBorders initState [Selection.coords 0 0 0 1] (some emptyDescriptor)).savedBorders
        = [] ∧
    ((setBorders initState [Selection.coords 0 0 0 1]
        (some emptyDescriptor)).customSelections.map (fun e => e.settings.id))
        = [createId 0 0, createId 0 1] ∧
    (∀ e ∈ (setBorders initState [Selection.coords 0 0 0 1]
        (some emptyDescriptor)).customSelections, e.cellRange ≠ none) := by
  decide

/-- C3 amended: `insertBorderIntoSettings` keeps the two collections in
sync only one-sidedly and per record: after it runs, an overlay entry
with the record's id always exists, while the id is in the store exactly
when the record is not fully hidden — a fully hidden record therefore
leaves (or creates) an overlay entry whose id is absent from the store,
and the two id sets can diverge. -/
theorem c3_insert_syncs_one_sidedly (s : PluginState) (b : BorderRecord)
    (hnd : StoreIdsNodup s) :
    overlayHasId b.id (insertBorderIntoSettings s b).customSelections = true ∧
    ((b.id ∈ (insertBorderIntoSettings s b).savedBorders.map (fun r => r.id)) ↔
      countHide b ≠ 4) := by
  refine ⟨overlayHasId_insert s b, ?_⟩
  rw [insertBorderIntoSettings, insertOverlay_savedBorders, insertStore_savedBorders]
  by_cases hc : countHide b = 4
  · rw [if_pos hc]
    constructor
    · intro hmem
      exact absurd hmem (spliceList_not_mem_id _ hnd)
    · intro h4; exact absurd hc h4
  · rw [if_neg hc]
    constructor
    · intro _; exact hc
    · intro _
      split
      · next hf => exact List.mem_map.mpr ⟨b, replaceFirst_found_mem b _ hf, rfl⟩
      · exact List.mem_map.mpr ⟨b, List.mem_append.mpr (Or.inr (by simp)), rfl⟩

/-- Witness for C3's amended theorem at a concrete state and record. -/
theorem c3_insert_syncs_one_sidedly_witness :
    overlayHasId (createEmptyBorders 4 4).id
      (insertBorderIntoSettings exampleState
        (createEmptyBorders 4 4)).customSelections = true ∧
    (((createEmptyBorders 4 4).id ∈
        (insertBorderIntoSettings exampleState
          (createEmptyBorders 4 4)).savedBorders.map (fun r => r.id)) ↔
      countHide (createEmptyBorders 4 4) ≠ 4) :=
  c3_insert_syncs_one_sidedly exampleState (createEmptyBorders 4 4) (by decide)

theorem intRange_self (a : Int) : intRange a a = [a] := by
  simp [intRange]
  norm_num [List.range_succ]

/-- C4 counterexample: the same zero-area selection of cell (1, 1) with
the same border object produces different stored records depending on the
input shape — the coordinate-array point case merges `{top: {}}` over the
default custom border, the range-shaped handle assigns the raw `{}`
verbatim. -/
theorem c4_zero_area_counterexample :
    (setBorders initState [Selection.handle 1 1 1 1]
        (some topOnlyDescriptor)).savedBorders ≠
      (setBorders initState [Selection.coords 1 1 1 1]
        (some topOnlyDescriptor)).savedBorders := by
  decide

/-- C4 amended: a zero-area range supplied as a range-shaped handle is
treated as a degenerate one-cell range, not as the point case: the cell's
borders are fully cleared and then the range path applies — each present
edge key of the border object is assigned verbatim into the record
(absent edges stay hidden), with no merging over the default custom
border. -/
theorem c4_zero_area_range_uses_raw_edges (s : PluginState) (r c : Int)
    (d : BorderDescriptor) :
    setBorders s [Selection.handle r c r c] (some d) =
      prepareBorderFromCustomAddedRange (removeAllBorders s r c)
        { fromRow := r, fromCol := c, toRow := r, toCol := c } d ∧
    prepareBorderFromCustomAddedRange (removeAllBorders s r c)
        { fromRow := r, fromCol := c, toRow := r, toCol := c } d =
      rangeCellStep (removeAllBorders s r c)
        { fromRow := r, fromCol := c, toRow := r, toCol := c } d r c ∧
    rangeCellBorder { fromRow := r, fromCol := c, toRow := r, toCol := c } d r c =
      { id := createId r c, row := r, col := c,
        top := if presentSpec d.top = true then rawEdgeStyle d.top
          else createSingleEmptyBorder,
        right := if presentSpec d.right = true then rawEdgeStyle d.right
          else createSingleEmptyBorder,
        bottom := if presentSpec d.bottom = true then rawEdgeStyle d.bottom
          else createSingleEmptyBorder,
        left := if presentSpec d.left = true then rawEdgeStyle d.left
          else createSingleEmptyBorder } := by
  refine ⟨?_, ?_, ?_⟩
  · simp [setBorders, intRange_self]
  · simp [prepareBorderFromCustomAddedRange, intRange_self]
  · cases ht : presentSpec d.top <;> cases hb : presentSpec d.bottom <;>
      cases hl : presentSpec d.left <;> cases hr2 : presentSpec d.right <;>
      simp [rangeCellBorder, ht, hb, hl, hr2, createEmptyBorders]

theorem removeAllBorders_savedBorders (s : PluginState) (r c : Int) :
    (removeAllBorders s r c).savedBorders = spliceList (createId r c) s.savedBorders :=
  rfl

theorem replaceFirst_not_found (b : BorderRecord) :
    ∀ l : List BorderRecord, (∀ x ∈ l, x.id ≠ b.id) →
      replaceFirstById b l = (false, l) := by
  intro l
  induction l with
  | nil => intro _; rfl
  | cons r rest ih =>
    intro h
    have hr : r.id ≠ b.id := h r (List.mem_cons_self r rest)
    simp only [replaceFirstById, hr, ite_false, if_false,
      ih (fun x hx => h x (List.mem_cons_of_mem r hx))]

theorem mem_spliceList_id {l : List BorderRecord} {borderId : BorderId}
    (hnd : (l.map (fun b => b.id)).Nodup) :
    ∀ x ∈ spliceList borderId l, x.id ≠ borderId := by
  intro x hx hid
  exact spliceList_not_mem_id l hnd (hid ▸ List.mem_map.mpr ⟨x, hx, rfl⟩)

theorem matchingBorders_append (l1 l2 : List BorderRecord) (r c : Int) :
    matchingBorders (l1 ++ l2) r c = matchingBorders l1 r c ++ matchingBorders l2 r c := by
  simp [matchingBorders, List.filter_append]

theorem matchingBorders_nil {l : List BorderRecord} {r c : Int}
    (h : ∀ b ∈ l, ¬(b.row = r ∧ b.col = c)) : matchingBorders l r c = [] := by
  induction l with
  | nil => rfl
  | cons b rest ih =>
    have hb := h b (List.mem_cons_self b rest)
    simp only [matchingBorders, List.filter_cons, decide_eq_true_eq, hb, ite_false,
      if_false, decide_eq_false hb]
    exact ih (fun x hx => h x (List.mem_cons_of_mem b hx))

theorem setBorders_point (s : PluginState) (r c : Int) (d : BorderDescriptor) :
    setBorders s [Selection.coords r c r c] (some d) =
      prepareBorderFromCustomAdded (removeAllBorders s r c) r c d := by
  simp [setBorders]

theorem getBorders_point (s : PluginState) (r c : Int) :
    getBorders s [Selection.coords r c r c] = matchingBorders s.savedBorders r c := by
  simp [getBorders]

/-- C5 counterexample: with a border object mentioning no edges, the
merged record is fully hidden and is evicted rather than stored, so the
round trip returns no record at all instead of the one record the claim
promises. -/
theorem c5_round_trip_counterexample :
    getBorders (setBorders initState [Selection.coords 0 0 0 0] (some emptyDescriptor))
        [Selection.coords 0 0 0 0] ≠
      [extendDefaultBorder (createEmptyBorders 0 0) emptyDescriptor] := by
  decide

/-- C5 amended: for a single-cell coordinate selection, `setBorders`
followed by `getBorders` on that cell returns exactly the one record
obtained by merging the border object over the defaults (mentioned edges
over the default custom border, unmentioned edges the default empty
border) — provided the store is well formed (ids derived from
coordinates, no duplicate ids) and the merged record keeps at least one
visible edge; a record with all four merged edges hidden is evicted
instead of stored. -/
theorem c5_round_trip_merged_over_defaults (s : PluginState) (r c : Int)
    (d : BorderDescriptor) (hids : StoreIdsMatch s) (hnd : StoreIdsNodup s)
    (hvis : countHide (extendDefaultBorder (createEmptyBorders r c) d) ≠ 4) :
    getBorders (setBorders s [Selection.coords r c r c] (some d))
        [Selection.coords r c r c] =
      [extendDefaultBorder (createEmptyBorders r c) d] := by
  rw [setBorders_point, getBorders_point]
  have hsplice : ∀ x ∈ spliceList (createId r c) s.savedBorders, x.id ≠ createId r c :=
    mem_spliceList_id hnd
  have hrepl : replaceFirstById (extendDefaultBorder (createEmptyBorders r c) d)
      (spliceList (createId r c) s.savedBorders) =
      (false, spliceList (createId r c) s.savedBorders) :=
    replaceFirst_not_found _ _ (fun x hx => hsplice x hx)
  have hsb : (prepareBorderFromCustomAdded (removeAllBorders s r c) r c d).savedBorders =
      spliceList (createId r c) s.savedBorders ++
        [extendDefaultBorder (createEmptyBorders r c) d] := by
    rw [prepareBorderFromCustomAdded, insertBorderIntoSettings, insertOverlay_savedBorders,
      insertStore_savedBorders, if_neg hvis]
    dsimp only
    rw [removeAllBorders_savedBorders, hrepl]
    simp
  rw [hsb, matchingBorders_append]
  have h1 : matchingBorders (spliceList (createId r c) s.savedBorders) r c = [] := by
    apply matchingBorders_nil
    intro b hb hcoords
    have hb2 : b ∈ s.savedBorders := mem_spliceList hb
    have hbid : b.id = createId r c := by
      rw [hids b hb2, hcoords.1, hcoords.2]
    exact hsplice b hb hbid
  have h2 : matchingBorders [extendDefaultBorder (createEmptyBorders r c) d] r c =
      [extendDefaultBorder (createEmptyBorders r c) d] := by
    simp [matchingBorders, extendDefaultBorder, createEmptyBorders]
  rw [h1, h2, List.nil_append]

/-- Witness for C5's amended theorem at a concrete state, cell and
border object. -/
theorem c5_round_trip_merged_over_defaults_witness :
    getBorders (setBorders exampleState [Selection.coords 2 3 2 3]
        (some topOnlyDescriptor)) [Selection.coords 2 3 2 3] =
      [extendDefaultBorder (createEmptyBorders 2 3) topOnlyDescriptor] :=
  c5_round_trip_merged_over_defaults exampleState 2 3 topOnlyDescriptor
    (by decide) (by decide) (by decide)

theorem storeWithId_cons_pos (r : BorderRecord) {other : BorderId} (h : r.id = other)
    (l : List BorderRecord) : storeWithId (r :: l) other = r :: storeWithId l other := by
  simp [storeWithId, List.filter_cons, h]

theorem storeWithId_cons_neg (r : BorderRecord) {other : BorderId} (h : ¬r.id = other)
    (l : List BorderRecord) : storeWithId (r :: l) other = storeWithId l other := by
  simp [storeWithId, List.filter_cons, h]

theorem overlayWithId_cons_pos (e : OverlayEntry) {other : BorderId}
    (h : e.settings.id = other) (l : List OverlayEntry) :
    overlayWithId (e :: l) other = e :: overlayWithId l other := by
  simp [overlayWithId, List.filter_cons, h]

theorem overlayWithId_cons_neg (e : OverlayEntry) {other : BorderId}
    (h : ¬e.settings.id = other) (l : List OverlayEntry) :
    overlayWithId (e :: l) other = overlayWithId l other := by
  simp [overlayWithId, List.filter_cons, h]

theorem storeWithId_spliceList_other {borderId other : BorderId} (hne : other ≠ borderId) :
    ∀ l : List BorderRecord,
      storeWithId (spliceList borderId l) other = storeWithId l other := by
  intro l
  induction l with
  | nil => rfl
  | cons r rest ih =>
    rw [spliceList]
    by_cases hr : r.id = borderId
    · rw [if_pos hr]
      have hro : ¬r.id = other := by intro h; rw [h] at hr; exact hne hr
      rw [storeWithId_cons_neg r hro]
    · rw [if_neg hr]
      by_cases hro : r.id = other
      · rw [storeWithId_cons_pos r hro (spliceList borderId rest),
          storeWithId_cons_pos r hro rest, ih]
      · rw [storeWithId_cons_neg r hro (spliceList borderId rest),
          storeWithId_cons_neg r hro rest, ih]

theorem storeWithId_append_other {other : BorderId} (b : BorderRecord)
    (hne : ¬b.id = other) (l : List BorderRecord) :
    storeWithId (l ++ [b]) other = storeWithId l other := by
  simp [storeWithId, List.filter_append, List.filter_cons, hne]

theorem storeWithId_replace_other {other : BorderId} (b : BorderRecord)
    (hne : other ≠ b.id) :
    ∀ l : List BorderRecord,
      storeWithId (replaceFirstById b l).snd other = storeWithId l other := by
  intro l
  induction l with
  | nil => rfl
  | cons r rest ih =>
    rw [replaceFirstById]
    by_cases hr : r.id = b.id
    · rw [if_pos hr]
      have hro : ¬r.id = other := by intro h; rw [h] at hr; exact hne hr
      have hbo : ¬b.id = other := fun h => hne h.symm
      show storeWithId (b :: rest) other = storeWithId (r :: rest) other
      rw [storeWithId_cons_neg b hbo rest, storeWithId_cons_neg r hro rest]
    · rw [if_neg hr]
      by_cases hro : r.id = other
      · rw [storeWithId_cons_pos r hro ((replaceFirstById b rest).snd),
          storeWithId_cons_pos r hro rest, ih]
      · rw [storeWithId_cons_neg r hro ((replaceFirstById b rest).snd),
          storeWithId_cons_neg r hro rest, ih]

theorem overlayWithId_clearFirst_other {borderId other : BorderId}
    (hne : other ≠ borderId) :
    ∀ l : List OverlayEntry,
      overlayWithId (overlayClearFirst borderId l) other = overlayWithId l other := by
  intro l
  induction l with
  | nil => rfl
  | cons e rest ih =>
    rw [overlayClearFirst]
    by_cases he : e.settings.id = borderId
    · rw [if_pos he]
      have heo : ¬e.settings.id = other := by intro h; rw [h] at he; exact hne he
      show overlayWithId ({ settings := e.settings, cellRange := none } :: rest) other =
        overlayWithId (e :: rest) other
      rw [overlayWithId_cons_neg { settings := e.settings, cellRange := none } heo rest,
        overlayWithId_cons_neg e heo rest]
    · rw [if_neg he]
      by_cases heo : e.settings.id = other
      · rw [overlayWithId_cons_pos e heo (overlayClearFirst borderId rest),
          overlayWithId_cons_pos e heo rest, ih]
      · rw [overlayWithId_cons_neg e heo (overlayClearFirst borderId rest),
          overlayWithId_cons_neg e heo rest, ih]

theorem overlayWithId_updateFirst_other {other : BorderId} (b : BorderRecord)
    (range : Int × Int) (hne : other ≠ b.id) :
    ∀ l : List OverlayEntry,
      overlayWithId (overlayUpdateFirst b range l).snd other = overlayWithId l other := by
  intro l
  induction l with
  | nil => rfl
  | cons e rest ih =>
    rw [overlayUpdateFirst]
    by_cases he : e.settings.id = b.id
    · rw [if_pos he]
      have heo : ¬e.settings.id = other := by intro h; rw [h] at he; exact hne he
      have hbo : ¬b.id = other := fun h => hne h.symm
      show overlayWithId ({ settings := b, cellRange := some range } :: rest) other =
        overlayWithId (e :: rest) other
      rw [overlayWithId_cons_neg { settings := b, cellRange := some range } hbo rest,
        overlayWithId_cons_neg e heo rest]
    · rw [if_neg he]
      by_cases heo : e.settings.id = other
      · rw [overlayWithId_cons_pos e heo ((overlayUpdateFirst b range rest).snd),
          overlayWithId_cons_pos e heo rest, ih]
      · rw [overlayWithId_cons_neg e heo ((overlayUpdateFirst b range rest).snd),
          overlayWithId_cons_neg e heo rest, ih]

theorem overlayWithId_append_other {other : BorderId} (e : OverlayEntry)
    (hne : ¬e.settings.id = other) (l : List OverlayEntry) :
    overlayWithId (l ++ [e]) other = overlayWithId l other := by
  simp [overlayWithId, List.filter_append, List.filter_cons, hne]

theorem sweep_clearFirst_frame {borderId other : BorderId} (hne : other ≠ borderId) :
    ∀ l : List OverlayEntry, (∀ e ∈ l, e.cellRange ≠ none) →
      overlayWithId (clearNullCellRange (overlayClearFirst borderId l)) other =
        overlayWithId l other := by
  intro l
  induction l with
  | nil => intro _; rfl
  | cons e rest ih =>
    intro hnn
    rw [overlayClearFirst]
    by_cases he : e.settings.id = borderId
    · rw [if_pos he]
      have heo : ¬e.settings.id = other := by intro h; rw [h] at he; exact hne he
      show overlayWithId
          (clearNullCellRange ({ settings := e.settings, cellRange := none } :: rest))
          other = overlayWithId (e :: rest) other
      rw [clearNullCellRange]
      rw [if_pos rfl, overlayWithId_cons_neg e heo rest]
    · rw [if_neg he]
      have hrange : e.cellRange ≠ none := hnn e (List.mem_cons_self e rest)
      show overlayWithId
          (clearNullCellRange (e :: overlayClearFirst borderId rest)) other =
        overlayWithId (e :: rest) other
      rw [clearNullCellRange, if_neg hrange]
      have hrest := ih (fun x hx => hnn x (List.mem_cons_of_mem e hx))
      by_cases heo : e.settings.id = other
      · rw [overlayWithId_cons_pos e heo
            (clearNullCellRange (overlayClearFirst borderId rest)),
          overlayWithId_cons_pos e heo rest, hrest]
      · rw [overlayWithId_cons_neg e heo
            (clearNullCellRange (overlayClearFirst borderId rest)),
          overlayWithId_cons_neg e heo rest, hrest]

theorem sweep_clearFirst_nonull {borderId : BorderId} :
    ∀ l : List OverlayEntry, (∀ e ∈ l, e.cellRange ≠ none) →
      ∀ e ∈ clearNullCellRange (overlayClearFirst borderId l), e.cellRange ≠ none := by
  intro l
  induction l with
  | nil => intro _ e he; exact absurd he (List.not_mem_nil e)
  | cons x rest ih =>
    intro hnn e he
    by_cases hx : x.settings.id = borderId
    · rw [overlayClearFirst, if_pos hx] at he
      rw [clearNullCellRange, if_pos rfl] at he
      exact hnn e (List.mem_cons_of_mem x he)
    · rw [overlayClearFirst, if_neg hx] at he
      have hrange : x.cellRange ≠ none := hnn x (List.mem_cons_self x rest)
      rw [clearNullCellRange, if_neg hrange] at he
      rcases List.mem_cons.mp he with rfl | he2
      · exact hrange
      · exact ih (fun y hy => hnn y (List.mem_cons_of_mem x hy)) e he2

theorem nonull_updateFirst {b : BorderRecord} {range : Int × Int} :
    ∀ l : List OverlayEntry, (∀ e ∈ l, e.cellRange ≠ none) →
      ∀ e ∈ (overlayUpdateFirst b range l).snd, e.cellRange ≠ none := by
  intro l
  induction l with
  | nil => intro _ e he; exact absurd he (List.not_mem_nil e)
  | cons x rest ih =>
    intro hnn e he
    by_cases hx : x.settings.id = b.id
    · rw [overlayUpdateFirst, if_pos hx] at he
      rcases List.mem_cons.mp he with rfl | he2
      · intro h; exact Option.noConfusion h
      · exact hnn e (List.mem_cons_of_mem x he2)
    · rw [overlayUpdateFirst, if_neg hx] at he
      rcases List.mem_cons.mp he with rfl | he2
      · exact hnn e (List.mem_cons_self _ _)
      · exact ih (fun y hy => hnn y (List.mem_cons_of_mem x hy)) e he2

theorem nonull_append {e0 : OverlayEntry} {range : Int × Int}
    (he0 : e0.cellRange = some range) :
    ∀ l : List OverlayEntry, (∀ e ∈ l, e.cellRange ≠ none) →
      ∀ e ∈ l ++ [e0], e.cellRange ≠ none := by
  intro l hnn e he
  rcases List.mem_append.mp he with h | h
  · exact hnn e h
  · simp only [List.mem_singleton] at h
    rw [h, he0]
    intro hcontra
    exact Option.noConfusion hcontra

theorem mem_metaRemove {k : Int × Int} {e : (Int × Int) × BorderRecord} :
    ∀ {m : List ((Int × Int) × BorderRecord)}, e ∈ metaRemove k m → e ∈ m := by
  intro m
  induction m with
  | nil => intro h; exact absurd h (List.not_mem_nil e)
  | cons x rest ih =>
    intro h
    by_cases hx : x.fst = k
    · rw [metaRemove, if_pos hx] at h
      exact List.mem_cons_of_mem x (ih h)
    · rw [metaRemove, if_neg hx] at h
      rcases List.mem_cons.mp h with rfl | h2
      · exact List.mem_cons_self _ _
      · exact List.mem_cons_of_mem x (ih h2)

theorem mem_metaSet {k : Int × Int} {v : BorderRecord} {e : (Int × Int) × BorderRecord} :
    ∀ {m : List ((Int × Int) × BorderRecord)}, e ∈ metaSet k v m → e = (k, v) ∨ e ∈ m := by
  intro m
  induction m with
  | nil =>
    intro h
    simp only [metaSet, List.mem_singleton] at h
    exact Or.inl h
  | cons x rest ih =>
    intro h
    by_cases hx : x.fst = k
    · rw [metaSet, if_pos hx] at h
      rcases List.mem_cons.mp h with rfl | h2
      · exact Or.inl rfl
      · exact Or.inr (List.mem_cons_of_mem x h2)
    · rw [metaSet, if_neg hx] at h
      rcases List.mem_cons.mp h with rfl | h2
      · exact Or.inr (List.mem_cons_self _ _)
      · rcases ih h2 with h3 | h3
        · exact Or.inl h3
        · exact Or.inr (List.mem_cons_of_mem x h3)

theorem metaLookup_wf {r c : Int} {b : BorderRecord} :
    ∀ {m : List ((Int × Int) × BorderRecord)},
      (∀ e ∈ m, e.snd.id = createId e.fst.fst e.fst.snd) →
      metaLookup m r c = some b → b.id = createId r c := by
  intro m
  induction m with
  | nil => intro _ h; exact absurd h (by simp [metaLookup])
  | cons x rest ih =>
    intro hwf h
    by_cases hx : x.fst = (r, c)
    · rw [metaLookup, if_pos hx] at h
      have := hwf x (List.mem_cons_self x rest)
      rw [hx] at this
      rw [← Option.some_inj.mp h]
      exact this
    · rw [metaLookup, if_neg hx] at h
      exact ih (fun e he => hwf e (List.mem_cons_of_mem x he)) h

theorem setEdge_id (b : BorderRecord) (place : Edge) (v : EdgeStyle) :
    (setEdge b place v).id = b.id := by
  cases place <;> rfl

theorem metaOrEmpty_id (s : PluginState) (r c : Int) (hmeta : MetaIdsMatch s) :
    (metaOrEmpty s r c).id = createId r c := by
  rw [metaOrEmpty]
  match h : metaLookup s.cellMeta r c with
  | none => rfl
  | some m => exact metaLookup_wf hmeta h

theorem removeAllBorders_customSelections (s : PluginState) (r c : Int) :
    (removeAllBorders s r c).customSelections =
      clearNullCellRange (overlayClearFirst (createId r c) s.customSelections) := rfl

theorem removeAllBorders_cellMeta (s : PluginState) (r c : Int) :
    (removeAllBorders s r c).cellMeta = metaRemove (r, c) s.cellMeta := rfl

theorem removeAllBorders_frame (s : PluginState) (r c : Int) (hnn : NoNullOverlay s) :
    (∀ r' c' : Int, ((r', c') : Int × Int) ≠ (r, c) →
      metaLookup (removeAllBorders s r c).cellMeta r' c' = metaLookup s.cellMeta r' c') ∧
    (∀ other : BorderId, other ≠ createId r c →
      storeWithId (removeAllBorders s r c).savedBorders other =
        storeWithId s.savedBorders other) ∧
    (∀ other : BorderId, other ≠ createId r c →
      overlayWithId (removeAllBorders s r c).customSelections other =
        overlayWithId s.customSelections other) ∧
    NoNullOverlay (removeAllBorders s r c) ∧
    (MetaIdsMatch s → MetaIdsMatch (removeAllBorders s r c)) := by
  refine ⟨?_, ?_, ?_, ?_, ?_⟩
  · intro r' c' hne
    rw [removeAllBorders_cellMeta]
    exact metaLookup_metaRemove_other _ _ _ _ (fun h => hne (by rw [h]))
  · intro other hne
    rw [removeAllBorders_savedBorders]
    exact storeWithId_spliceList_other hne _
  · intro other hne
    rw [removeAllBorders_customSelections]
    exact sweep_clearFirst_frame hne _ hnn
  · intro e he
    rw [removeAllBorders_customSelections] at he
    exact sweep_clearFirst_nonull _ hnn e he
  · intro hmeta e he
    rw [removeAllBorders_cellMeta] at he
    exact hmeta e (mem_metaRemove he)

theorem insertOverlay_customSelections (s : PluginState) (b : BorderRecord) :
    (insertOverlay s b).customSelections =
      if (overlayUpdateFirst b (b.row, b.col) s.customSelections).fst then
        (overlayUpdateFirst b (b.row, b.col) s.customSelections).snd
      else s.customSelections ++
        [{ settings := b, cellRange := some (b.row, b.col) }] := by
  simp only [insertOverlay]
  split
  · rfl
  · rfl

theorem insert_cellMeta (s : PluginState) (b : BorderRecord) :
    (insertBorderIntoSettings s b).cellMeta = s.cellMeta := by
  rw [insertBorderIntoSettings, insertOverlay_cellMeta, insertStore_cellMeta]

theorem insert_frame (s : PluginState) (b : BorderRecord) (hnn : NoNullOverlay s) :
    (∀ other : BorderId, other ≠ b.id →
      storeWithId (insertBorderIntoSettings s b).savedBorders other =
        storeWithId s.savedBorders other) ∧
    (∀ other : BorderId, other ≠ b.id →
      overlayWithId (insertBorderIntoSettings s b).customSelections other =
        overlayWithId s.customSelections other) ∧
    NoNullOverlay (insertBorderIntoSettings s b) := by
  refine ⟨?_, ?_, ?_⟩
  · intro other hne
    rw [insertBorderIntoSettings, insertOverlay_savedBorders, insertStore_savedBorders]
    split
    · exact storeWithId_spliceList_other hne _
    · split
      · exact storeWithId_replace_other b hne _
      · rw [storeWithId_append_other b (fun h => hne h.symm)]
        exact storeWithId_replace_other b hne _
  · intro other hne
    rw [insertBorderIntoSettings, insertOverlay_customSelections,
      insertStore_customSelections]
    split
    · exact overlayWithId_updateFirst_other b _ hne _
    · exact overlayWithId_append_other _ (fun h => hne h.symm) _
  · intro e he
    rw [insertBorderIntoSettings, insertOverlay_customSelections,
      insertStore_customSelections] at he
    revert he
    split
    · intro he; exact nonull_updateFirst _ hnn e he
    · intro he; exact nonull_append rfl _ hnn e he

theorem setBorderApply_cellMeta (s : PluginState) (r c : Int) (updated : BorderRecord) :
    (setBorderApply s r c updated).cellMeta = metaSet (r, c) updated s.cellMeta := by
  simp only [setBorderApply]
  split
  · rfl
  · rw [insert_cellMeta]

theorem setBorderApply_savedBorders (s : PluginState) (r c : Int)
    (updated : BorderRecord) :
    (setBorderApply s r c updated).savedBorders =
      if overlayHasId updated.id s.customSelections then s.savedBorders
      else (insertBorderIntoSettings s updated).savedBorders := by
  simp only [setBorderApply]
  split
  · rfl
  · rfl

theorem setBorderApply_customSelections (s : PluginState) (r c : Int)
    (updated : BorderRecord) :
    (setBorderApply s r c updated).customSelections =
      if overlayHasId updated.id s.customSelections then s.customSelections
      else (insertBorderIntoSettings s updated).customSelections := by
  simp only [setBorderApply]
  split
  · rfl
  · rfl

theorem setBorderApply_frame (s : PluginState) (r c : Int) (updated : BorderRecord)
    (hid : updated.id = createId r c) (hnn : NoNullOverlay s) :
    (∀ r' c' : Int, ((r', c') : Int × Int) ≠ (r, c) →
      metaLookup (setBorderApply s r c updated).cellMeta r' c' =
        metaLookup s.cellMeta r' c') ∧
    (∀ other : BorderId, other ≠ createId r c →
      storeWithId (setBorderApply s r c updated).savedBorders other =
        storeWithId s.savedBorders other) ∧
    (∀ other : BorderId, other ≠ createId r c →
      overlayWithId (setBorderApply s r c updated).customSelections other =
        overlayWithId s.customSelections other) ∧
    NoNullOverlay (setBorderApply s r c updated) ∧
    (MetaIdsMatch s → MetaIdsMatch (setBorderApply s r c updated)) ∧
    metaLookup (setBorderApply s r c updated).cellMeta r c = some updated := by
  refine ⟨?_, ?_, ?_, ?_, ?_, ?_⟩
  · intro r' c' hne
    rw [setBorderApply_cellMeta]
    exact metaLookup_metaSet_other _ _ _ _ _ (fun h => hne (by rw [h]))
  · intro other hne
    rw [setBorderApply_savedBorders]
    split
    · rfl
    · exact (insert_frame s updated hnn).1 other (fun h => hne (h.trans hid))
  · intro other hne
    rw [setBorderApply_customSelections]
    split
    · rfl
    · exact (insert_frame s updated hnn).2.1 other (fun h => hne (h.trans hid))
  · intro e he
    rw [setBorderApply_customSelections] at he
    revert he
    split
    · intro he; exact hnn e he
    · intro he; exact (insert_frame s updated hnn).2.2 e he
  · intro hmeta e he
    rw [setBorderApply_cellMeta] at he
    rcases mem_metaSet he with rfl | h2
    · exact hid
    · exact hmeta e h2
  · rw [setBorderApply_cellMeta]
    exact metaLookup_metaSet_self _ _ _ _

theorem setBorder_frame (s : PluginState) (r c : Int) (place : Edge) (rm : Bool)
    (hmeta : MetaIdsMatch s) (hnn : NoNullOverlay s) :
    (∀ r' c' : Int, ((r', c') : Int × Int) ≠ (r, c) →
      metaLookup (setBorder s r c place rm).cellMeta r' c' =
        metaLookup s.cellMeta r' c') ∧
    (∀ other : BorderId, other ≠ createId r c →
      storeWithId (setBorder s r c place rm).savedBorders other =
        storeWithId s.savedBorders other) ∧
    (∀ other : BorderId, other ≠ createId r c →
      overlayWithId (setBorder s r c place rm).customSelections other =
        overlayWithId s.customSelections other) ∧
    NoNullOverlay (setBorder s r c place rm) ∧
    MetaIdsMatch (setBorder s r c place rm) := by
  have hid1 : (setEdge (metaOrEmpty s r c) place createSingleEmptyBorder).id =
      createId r c := by rw [setEdge_id, metaOrEmpty_id s r c hmeta]
  have hid2 : (setEdge (metaOrEmpty s r c) place createDefaultCustomBorder).id =
      createId r c := by rw [setEdge_id, metaOrEmpty_id s r c hmeta]
  simp only [setBorder]
  split
  · split
    · have h := removeAllBorders_frame s r c hnn
      exact ⟨h.1, h.2.1, h.2.2.1, h.2.2.2.1, h.2.2.2.2 hmeta⟩
    · have h := setBorderApply_frame s r c _ hid1 hnn
      exact ⟨h.1, h.2.1, h.2.2.1, h.2.2.2.1, h.2.2.2.2.1 hmeta⟩
  · have h := setBorderApply_frame s r c _ hid2 hnn
    exact ⟨h.1, h.2.1, h.2.2.1, h.2.2.2.1, h.2.2.2.2.1 hmeta⟩

theorem setBorder_add_effect (s : PluginState) (r c : Int) (place : Edge) :
    metaLookup (setBorder s r c place false).cellMeta r c =
      some (setEdge (metaOrEmpty s r c) place createDefaultCustomBorder) := by
  have h : setBorder s r c place false =
      setBorderApply s r c (setEdge (metaOrEmpty s r c) place createDefaultCustomBorder) := by
    simp [setBorder]
  rw [h, setBorderApply_cellMeta]
  exact metaLookup_metaSet_self _ _ _ _

theorem intRange_0_2 : intRange 0 2 = [0, 1, 2] := by decide

theorem prepareBorder_top33 (s : PluginState) (rm : Bool) :
    prepareBorder s [{ startRow := 0, startCol := 0, endRow := 2, endCol := 2 }]
        MenuPlace.top rm =
      setBorder (setBorder (setBorder s 0 0 Edge.top rm) 0 1 Edge.top rm) 0 2
        Edge.top rm := by
  have hne : ¬((0 : Int) = 2 ∧ (0 : Int) = 2) := by decide
  simp [prepareBorder, intRange_0_2, hne]

theorem prepareBorder_noBorders33 (s : PluginState) (rm : Bool) :
    prepareBorder s [{ startRow := 0, startCol := 0, endRow := 2, endCol := 2 }]
        MenuPlace.noBorders rm =
      removeAllBorders (removeAllBorders (removeAllBorders (removeAllBorders
        (removeAllBorders (removeAllBorders (removeAllBorders (removeAllBorders
          (removeAllBorders s 0 0) 1 0) 2 0) 0 1) 1 1) 2 1) 0 2) 1 2) 2 2 := by
  have hne : ¬((0 : Int) = 2 ∧ (0 : Int) = 2) := by decide
  simp [prepareBorder, intRange_0_2, hne]

theorem removeAll_subset {s : PluginState} {r c : Int} {x : BorderRecord}
    (h : x ∈ (removeAllBorders s r c).savedBorders) : x ∈ s.savedBorders := by
  rw [removeAllBorders_savedBorders] at h
  exact mem_spliceList h

theorem spliceList_sublist (borderId : BorderId) :
    ∀ l : List BorderRecord, List.Sublist (spliceList borderId l) l := by
  intro l
  induction l with
  | nil => exact List.Sublist.refl []
  | cons r rest ih =>
    rw [spliceList]
    by_cases hr : r.id = borderId
    · rw [if_pos hr]
      exact List.sublist_cons_of_sublist r (List.Sublist.refl rest)
    · rw [if_neg hr]
      exact List.Sublist.cons₂ r ih

theorem removeAll_nodup {s : PluginState} (r c : Int) (hnd : StoreIdsNodup s) :
    StoreIdsNodup (removeAllBorders s r c) := by
  unfold StoreIdsNodup at hnd ⊢
  rw [removeAllBorders_savedBorders]
  exact List.Nodup.sublist (List.Sublist.map _ (spliceList_sublist _ _)) hnd

theorem removeAll_clears {s : PluginState} {r c : Int} (hnd : StoreIdsNodup s) :
    ∀ x ∈ (removeAllBorders s r c).savedBorders, x.id ≠ createId r c := by
  intro x hx
  rw [removeAllBorders_savedBorders] at hx
  exact mem_spliceList_id hnd x hx

theorem removeNine_clears (s : PluginState) (hids : StoreIdsMatch s)
    (hnd : StoreIdsNodup s) :
    ∀ b ∈ (removeAllBorders (removeAllBorders (removeAllBorders (removeAllBorders
      (removeAllBorders (removeAllBorders (removeAllBorders (removeAllBorders
        (removeAllBorders s 0 0) 1 0) 2 0) 0 1) 1 1) 2 1) 0 2) 1 2) 2 2).savedBorders,
      ¬(0 ≤ b.row ∧ b.row ≤ 2 ∧ 0 ≤ b.col ∧ b.col ≤ 2) := by
  intro b hb9 hrect
  have n1 := removeAll_nodup (s := s) 0 0 hnd
  have n2 := removeAll_nodup (s := removeAllBorders s 0 0) 1 0 n1
  have n3 := removeAll_nodup 2 0 n2
  have n4 := removeAll_nodup 0 1 n3
  have n5 := removeAll_nodup 1 1 n4
  have n6 := removeAll_nodup 2 1 n5
  have n7 := removeAll_nodup 0 2 n6
  have n8 := removeAll_nodup 1 2 n7
  have m8 := removeAll_subset hb9
  have m7 := removeAll_subset m8
  have m6 := removeAll_subset m7
  have m5 := removeAll_subset m6
  have m4 := removeAll_subset m5
  have m3 := removeAll_subset m4
  have m2 := removeAll_subset m3
  have m1 := removeAll_subset m2
  have m0 := removeAll_subset m1
  have hid : b.id = createId b.row b.col := hids b m0
  have hr : b.row = 0 ∨ b.row = 1 ∨ b.row = 2 := by omega
  have hc : b.col = 0 ∨ b.col = 1 ∨ b.col = 2 := by omega
  rcases hr with h1 | h1 | h1 <;> rcases hc with h2 | h2 | h2 <;> rw [h1, h2] at hid
  · exact removeAll_clears hnd b m1 hid
  · exact removeAll_clears n3 b m4 hid
  · exact removeAll_clears n6 b m7 hid
  · exact removeAll_clears n1 b m2 hid
  · exact removeAll_clears n4 b m5 hid
  · exact removeAll_clears n7 b m8 hid
  · exact removeAll_clears n2 b m3 hid
  · exact removeAll_clears n5 b m6 hid
  · exact removeAll_clears n8 b hb9 hid

/-- C6: context-menu range path over the rectangle (0,0)-(2,2).  Applying
the `top` edge operation touches only the cells (0,0), (0,1), (0,2): every
other cell's metadata, and the store and overlay entries of every other
id, are unchanged, while (adding) each top-row cell's metadata records a
visible default top edge.  Applying `noBorders` leaves the store with no
record whose coordinates lie inside the rectangle. -/
theorem c6_range_edge_targeting (s : PluginState) (rm : Bool)
    (hmeta : MetaIdsMatch s) (hnn : NoNullOverlay s)
    (hids : StoreIdsMatch s) (hnd : StoreIdsNodup s) :
    (∀ r' c' : Int, ¬(r' = 0 ∧ (c' = 0 ∨ c' = 1 ∨ c' = 2)) →
      metaLookup (prepareBorder s
        [{ startRow := 0, startCol := 0, endRow := 2, endCol := 2 }]
        MenuPlace.top rm).cellMeta r' c' = metaLookup s.cellMeta r' c') ∧
    (∀ other : BorderId, other ≠ createId 0 0 → other ≠ createId 0 1 →
      other ≠ createId 0 2 →
      storeWithId (prepareBorder s
          [{ startRow := 0, startCol := 0, endRow := 2, endCol := 2 }]
          MenuPlace.top rm).savedBorders other = storeWithId s.savedBorders other ∧
      overlayWithId (prepareBorder s
          [{ startRow := 0, startCol := 0, endRow := 2, endCol := 2 }]
          MenuPlace.top rm).customSelections other =
        overlayWithId s.customSelections other) ∧
    (∀ c' : Int, c' = 0 ∨ c' = 1 ∨ c' = 2 →
      ∃ m, metaLookup (prepareBorder s
          [{ startRow := 0, startCol := 0, endRow := 2, endCol := 2 }]
          MenuPlace.top false).cellMeta 0 c' = some m ∧
        m.top = createDefaultCustomBorder) ∧
    (∀ b ∈ (prepareBorder s
        [{ startRow := 0, startCol := 0, endRow := 2, endCol := 2 }]
        MenuPlace.noBorders rm).savedBorders,
      ¬(0 ≤ b.row ∧ b.row ≤ 2 ∧ 0 ≤ b.col ∧ b.col ≤ 2)) := by
  have F1 := setBorder_frame s 0 0 Edge.top rm hmeta hnn
  have F2 := setBorder_frame (setBorder s 0 0 Edge.top rm) 0 1 Edge.top rm
    F1.2.2.2.2 F1.2.2.2.1
  have F3 := setBorder_frame (setBorder (setBorder s 0 0 Edge.top rm) 0 1 Edge.top rm)
    0 2 Edge.top rm F2.2.2.2.2 F2.2.2.2.1
  have G1 := setBorder_frame s 0 0 Edge.top false hmeta hnn
  have G2 := setBorder_frame (setBorder s 0 0 Edge.top false) 0 1 Edge.top false
    G1.2.2.2.2 G1.2.2.2.1
  have G3 := setBorder_frame
    (setBorder (setBorder s 0 0 Edge.top false) 0 1 Edge.top false)
    0 2 Edge.top false G2.2.2.2.2 G2.2.2.2.1
  refine ⟨?_, ?_, ?_, ?_⟩
  · intro r' c' hnot
    have ne0 : ((r', c') : Int × Int) ≠ ((0, 0) : Int × Int) := by
      intro h
      rw [Prod.mk.injEq] at h
      exact hnot ⟨h.1, Or.inl h.2⟩
    have ne1 : ((r', c') : Int × Int) ≠ ((0, 1) : Int × Int) := by
      intro h
      rw [Prod.mk.injEq] at h
      exact hnot ⟨h.1, Or.inr (Or.inl h.2)⟩
    have ne2 : ((r', c') : Int × Int) ≠ ((0, 2) : Int × Int) := by
      intro h
      rw [Prod.mk.injEq] at h
      exact hnot ⟨h.1, Or.inr (Or.inr h.2)⟩
    rw [prepareBorder_top33, F3.1 r' c' ne2, F2.1 r' c' ne1, F1.1 r' c' ne0]
  · intro other h0 h1 h2
    rw [prepareBorder_top33]
    constructor
    · rw [(F3.2.1) other h2, (F2.2.1) other h1, (F1.2.1) other h0]
    · rw [(F3.2.2.1) other h2, (F2.2.2.1) other h1, (F1.2.2.1) other h0]
  · intro c' hc
    rw [prepareBorder_top33]
    rcases hc with rfl | rfl | rfl
    · refine ⟨setEdge (metaOrEmpty s 0 0) Edge.top createDefaultCustomBorder, ?_, rfl⟩
      rw [G3.1 0 0 (by decide), G2.1 0 0 (by decide)]
      exact setBorder_add_effect s 0 0 Edge.top
    · refine ⟨setEdge (metaOrEmpty (setBorder s 0 0 Edge.top false) 0 1) Edge.top
        createDefaultCustomBorder, ?_, rfl⟩
      rw [G3.1 0 1 (by decide)]
      exact setBorder_add_effect (setBorder s 0 0 Edge.top false) 0 1 Edge.top
    · exact ⟨setEdge (metaOrEmpty
          (setBorder (setBorder s 0 0 Edge.top false) 0 1 Edge.top false) 0 2)
          Edge.top createDefaultCustomBorder,
        setBorder_add_effect _ 0 2 Edge.top, rfl⟩
  · rw [prepareBorder_noBorders33]
    exact removeNine_clears s hids hnd

/-- Witness for C6 at a concrete state. -/
theorem c6_range_edge_targeting_witness :
    (∀ r' c' : Int, ¬(r' = 0 ∧ (c' = 0 ∨ c' = 1 ∨ c' = 2)) →
      metaLookup (prepareBorder exampleState
        [{ startRow := 0, startCol := 0, endRow := 2, endCol := 2 }]
        MenuPlace.top true).cellMeta r' c' = metaLookup exampleState.cellMeta r' c') ∧
    (∀ other : BorderId, other ≠ createId 0 0 → other ≠ createId 0 1 →
      other ≠ createId 0 2 →
      storeWithId (prepareBorder exampleState
          [{ startRow := 0, startCol := 0, endRow := 2, endCol := 2 }]
          MenuPlace.top true).savedBorders other =
        storeWithId exampleState.savedBorders other ∧
      overlayWithId (prepareBorder exampleState
          [{ startRow := 0, startCol := 0, endRow := 2, endCol := 2 }]
          MenuPlace.top true).customSelections other =
        overlayWithId exampleState.customSelections other) ∧
    (∀ c' : Int, c' = 0 ∨ c' = 1 ∨ c' = 2 →
      ∃ m, metaLookup (prepareBorder exampleState
          [{ startRow := 0, startCol := 0, endRow := 2, endCol := 2 }]
          MenuPlace.top false).cellMeta 0 c' = some m ∧
        m.top = createDefaultCustomBorder) ∧
    (∀ b ∈ (prepareBorder exampleState
        [{ startRow := 0, startCol := 0, endRow := 2, endCol := 2 }]
        MenuPlace.noBorders true).savedBorders,
      ¬(0 ≤ b.row ∧ b.row ≤ 2 ∧ 0 ≤ b.col ∧ b.col ≤ 2)) :=
  c6_range_edge_targeting exampleState true (by decide) (by decide) (by decide)
    (by decide)

/-- C7: declarative range application of a descriptor with `top` and
`left` empty-object edges over the rectangle (0,0)-(2,2), from the empty
state.  Cell (0,0) ends with a stored record whose top and left edges are
visible (and right/bottom hidden), cell (0,1) with only the top edge
visible, cell (1,0) with only the left edge visible, and the interior
cell (1,1) has no record at all. -/
theorem c7_corner_double_edge :
    ((matchingBorders (createCustomBorders initState
        [{ range := some { fromRow := 0, fromCol := 0, toRow := 2, toCol := 2 },
           row := 0, col := 0,
           descriptor := { top := EdgeSpec.obj none none none,
                           right := EdgeSpec.absent, bottom := EdgeSpec.absent,
                           left := EdgeSpec.obj none none none } }]).savedBorders 0 0).map
        (fun b => (b.top.hide, b.right.hide, b.bottom.hide, b.left.hide)) =
      [(false, true, true, false)]) ∧
    ((matchingBorders (createCustomBorders initState
        [{ range := some { fromRow := 0, fromCol := 0, toRow := 2, toCol := 2 },
           row := 0, col := 0,
           descriptor := { top := EdgeSpec.obj none none none,
                           right := EdgeSpec.absent, bottom := EdgeSpec.absent,
                           left := EdgeSpec.obj none none none } }]).savedBorders 0 1).map
        (fun b => (b.top.hide, b.right.hide, b.bottom.hide, b.left.hide)) =
      [(false, true, true, true)]) ∧
    ((matchingBorders (createCustomBorders initState
        [{ range := some { fromRow := 0, fromCol := 0, toRow := 2, toCol := 2 },
           row := 0, col := 0,
           descriptor := { top := EdgeSpec.obj none none none,
                           right := EdgeSpec.absent, bottom := EdgeSpec.absent,
                           left := EdgeSpec.obj none none none } }]).savedBorders 1 0).map
        (fun b => (b.top.hide, b.right.hide, b.bottom.hide, b.left.hide)) =
      [(true, true, true, false)]) ∧
    matchingBorders (createCustomBorders initState
        [{ range := some { fromRow := 0, fromCol := 0, toRow := 2, toCol := 2 },
           row := 0, col := 0,
           descriptor := { top := EdgeSpec.obj none none none,
                           right := EdgeSpec.absent, bottom := EdgeSpec.absent,
                           left := EdgeSpec.obj none none none } }]).savedBorders 1 1 =
      [] := by
  decide

/-- C8: (scenario) starting from the empty state, the context-menu
sequence add-`top`, add-`right`, remove-`top`, remove-`right` on cell
(1,1) ends with no store record for (1,1) and no `borders` metadata for
that cell; (in general) whenever the remove path's updated record reaches
a hidden-edge count of 4, `setBorder` degenerates to `removeAllBorders`:
the cell's metadata is removed and, in a duplicate-free store, no record
with the cell's id survives. -/
theorem c8_menu_removal_evicts (s : PluginState) (r c : Int) (place : Edge)
    (h4 : countHide (setEdge (metaOrEmpty s r c) place createSingleEmptyBorder) = 4)
    (hnd : StoreIdsNodup s) :
    matchingBorders (prepareBorder (prepareBorder (prepareBorder (prepareBorder
          initState [{ startRow := 1, startCol := 1, endRow := 1, endCol := 1 }]
            MenuPlace.top false)
          [{ startRow := 1, startCol := 1, endRow := 1, endCol := 1 }]
          MenuPlace.right false)
        [{ startRow := 1, startCol := 1, endRow := 1, endCol := 1 }]
        MenuPlace.top true)
      [{ startRow := 1, startCol := 1, endRow := 1, endCol := 1 }]
      MenuPlace.right true).savedBorders 1 1 = [] ∧
    metaLookup (prepareBorder (prepareBorder (prepareBorder (prepareBorder
          initState [{ startRow := 1, startCol := 1, endRow := 1, endCol := 1 }]
            MenuPlace.top false)
          [{ startRow := 1, startCol := 1, endRow := 1, endCol := 1 }]
          MenuPlace.right false)
        [{ startRow := 1, startCol := 1, endRow := 1, endCol := 1 }]
        MenuPlace.top true)
      [{ startRow := 1, startCol := 1, endRow := 1, endCol := 1 }]
      MenuPlace.right true).cellMeta 1 1 = none ∧
    setBorder s r c place true = removeAllBorders s r c ∧
    metaLookup (setBorder s r c place true).cellMeta r c = none ∧
    (∀ x ∈ (setBorder s r c place true).savedBorders, x.id ≠ createId r c) := by
  have heq : setBorder s r c place true = removeAllBorders s r c := by
    simp [setBorder, h4]
  refine ⟨by decide, by decide, heq, ?_, ?_⟩
  · rw [heq, removeAllBorders_cellMeta]
    exact metaLookup_metaRemove_self _ _ _
  · rw [heq]
    exact removeAll_clears hnd

/-- Witness for C8 at a concrete state where removing the one visible
edge leaves all four edges hidden. -/
theorem c8_menu_removal_evicts_witness :
    matchingBorders (prepareBorder (prepareBorder (prepareBorder (prepareBorder
          initState [{ startRow := 1, startCol := 1, endRow := 1, endCol := 1 }]
            MenuPlace.top false)
          [{ startRow := 1, startCol := 1, endRow := 1, endCol := 1 }]
          MenuPlace.right false)
        [{ startRow := 1, startCol := 1, endRow := 1, endCol := 1 }]
        MenuPlace.top true)
      [{ startRow := 1, startCol := 1, endRow := 1, endCol := 1 }]
      MenuPlace.right true).savedBorders 1 1 = [] ∧
    metaLookup (prepareBorder (prepareBorder (prepareBorder (prepareBorder
          initState [{ startRow := 1, startCol := 1, endRow := 1, endCol := 1 }]
            MenuPlace.top false)
          [{ startRow := 1, startCol := 1, endRow := 1, endCol := 1 }]
          MenuPlace.right false)
        [{ startRow := 1, startCol := 1, endRow := 1, endCol := 1 }]
        MenuPlace.top true)
      [{ startRow := 1, startCol := 1, endRow := 1, endCol := 1 }]
      MenuPlace.right true).cellMeta 1 1 = none ∧
    setBorder exampleState 0 0 Edge.top true = removeAllBorders exampleState 0 0 ∧
    metaLookup (setBorder exampleState 0 0 Edge.top true).cellMeta 0 0 = none ∧
    (∀ x ∈ (setBorder exampleState 0 0 Edge.top true).savedBorders,
      x.id ≠ createId 0 0) :=
  c8_menu_removal_evicts exampleState 0 0 Edge.top (by decide) (by decide)

theorem spliceList_of_not_mem {borderId : BorderId} :
    ∀ l : List BorderRecord, borderId ∉ l.map (fun b => b.id) →
      spliceList borderId l = l := by
  intro l
  induction l with
  | nil => intro _; rfl
  | cons r rest ih =>
    intro h
    simp only [List.map_cons, List.mem_cons] at h
    push_neg at h
    rw [spliceList, if_neg (fun h2 => h.1 h2.symm), ih h.2]

theorem spliceList_twice {borderId : BorderId} {l : List BorderRecord}
    (hnd : (l.map (fun b => b.id)).Nodup) :
    spliceList borderId (spliceList borderId l) = spliceList borderId l :=
  spliceList_of_not_mem _ (spliceList_not_mem_id l hnd)

theorem metaRemove_of_none {r c : Int} :
    ∀ m : List ((Int × Int) × BorderRecord), metaLookup m r c = none →
      metaRemove (r, c) m = m := by
  intro m
  induction m with
  | nil => intro _; rfl
  | cons e rest ih =>
    intro h
    by_cases he : e.fst = (r, c)
    · rw [metaLookup, if_pos he] at h
      exact absurd h (by simp)
    · rw [metaLookup, if_neg he] at h
      rw [metaRemove, if_neg he, ih h]

theorem firstCleared_clearFirst_self (borderId : BorderId) :
    ∀ l : List OverlayEntry, firstCleared borderId (overlayClearFirst borderId l) := by
  intro l
  induction l with
  | nil => exact trivial
  | cons e rest ih =>
    by_cases he : e.settings.id = borderId
    · rw [overlayClearFirst, if_pos he, firstCleared, if_pos he]
    · rw [overlayClearFirst, if_neg he, firstCleared, if_neg he]
      exact ih

theorem firstCleared_clearFirst_pres {borderId other : BorderId} :
    ∀ l : List OverlayEntry, firstCleared borderId l →
      firstCleared borderId (overlayClearFirst other l) := by
  intro l
  induction l with
  | nil => intro _; exact trivial
  | cons e rest ih =>
    intro h
    by_cases he : e.settings.id = other
    · rw [overlayClearFirst, if_pos he]
      by_cases hb : e.settings.id = borderId
      · rw [firstCleared, if_pos hb]
      · rw [firstCleared, if_neg hb] at h ⊢
        exact h
    · rw [overlayClearFirst, if_neg he]
      by_cases hb : e.settings.id = borderId
      · rw [firstCleared, if_pos hb] at h ⊢
        exact h
      · rw [firstCleared, if_neg hb] at h ⊢
        exact ih h

theorem clearFirst_of_firstCleared (borderId : BorderId) :
    ∀ l : List OverlayEntry, firstCleared borderId l →
      overlayClearFirst borderId l = l := by
  intro l
  induction l with
  | nil => intro _; rfl
  | cons e rest ih =>
    intro h
    by_cases he : e.settings.id = borderId
    · rw [firstCleared, if_pos he] at h
      rw [overlayClearFirst, if_pos he]
      cases e with
      | mk settings cellRange =>
        simp only at h
        rw [h]
    · rw [firstCleared, if_neg he] at h
      rw [overlayClearFirst, if_neg he, ih h]

theorem clearFold_firstCleared_pres {borderId : BorderId} :
    ∀ (l : List BorderRecord) (acc : PluginState),
      firstCleared borderId acc.customSelections →
      firstCleared borderId (l.foldl clearBorderStep acc).customSelections := by
  intro l
  induction l with
  | nil => intro acc h; exact h
  | cons b t ih =>
    intro acc h
    rw [List.foldl_cons]
    exact ih _ (by rw [clearBorderStep_customSelections]
                   exact firstCleared_clearFirst_pres _ h)

theorem clearFold_firstCleared :
    ∀ (l : List BorderRecord) (acc : PluginState), ∀ b ∈ l,
      firstCleared b.id (l.foldl clearBorderStep acc).customSelections := by
  intro l
  induction l with
  | nil => intro acc b hb; exact absurd hb (List.not_mem_nil b)
  | cons b0 t ih =>
    intro acc b hb
    rw [List.foldl_cons]
    rcases List.mem_cons.mp hb with rfl | hb2
    · apply clearFold_firstCleared_pres
      rw [clearBorderStep_customSelections]
      exact firstCleared_clearFirst_self _ _
    · exact ih _ b hb2

theorem clearFold_of_cleared :
    ∀ (l : List BorderRecord) (acc : PluginState),
      (∀ b ∈ l, firstCleared b.id acc.customSelections ∧
        metaLookup acc.cellMeta b.row b.col = none) →
      l.foldl clearBorderStep acc = acc := by
  intro l
  induction l with
  | nil => intro acc _; rfl
  | cons b0 t ih =>
    intro acc h
    have h0 := h b0 (List.mem_cons_self b0 t)
    have hstep : clearBorderStep acc b0 = acc := by
      rw [clearBorderStep]
      rw [clearFirst_of_firstCleared _ _ h0.1]
      rw [metaRemove_of_none _ h0.2]
    rw [List.foldl_cons, hstep]
    exact ih _ (fun b hb => h b (List.mem_cons_of_mem b0 hb))

/-- C9: both removal operations are idempotent — `spliceBorder` applied
twice with the same id equals one application (in a duplicate-free
store), an id with no matching record makes `spliceBorder` a silent
no-op, and the no-argument `clearBorders` applied twice equals one
application. -/
theorem c9_removal_idempotence (s : PluginState) (borderId : BorderId)
    (hnd : StoreIdsNodup s) :
    spliceBorder (spliceBorder s borderId) borderId = spliceBorder s borderId ∧
    (borderId ∉ s.savedBorders.map (fun b => b.id) → spliceBorder s borderId = s) ∧
    clearBorders (clearBorders s none) none = clearBorders s none := by
  refine ⟨?_, ?_, ?_⟩
  · simp [spliceBorder, spliceList_twice hnd]
  · intro habs
    simp [spliceBorder, spliceList_of_not_mem _ habs]
  · show (clearBorders s none).savedBorders.foldl clearBorderStep (clearBorders s none) =
      clearBorders s none
    have hsb : (clearBorders s none).savedBorders = s.savedBorders :=
      clearFold_savedBorders _ _
    rw [hsb]
    apply clearFold_of_cleared
    intro b hb
    exact ⟨clearFold_firstCleared _ _ b hb, clearFold_meta_clears _ _ b hb⟩

/-- Witness for C9 at a concrete state and id. -/
theorem c9_removal_idempotence_witness :
    spliceBorder (spliceBorder exampleState (createId 0 0)) (createId 0 0) =
      spliceBorder exampleState (createId 0 0) ∧
    (createId 0 0 ∉ exampleState.savedBorders.map (fun b => b.id) →
      spliceBorder exampleState (createId 0 0) = exampleState) ∧
    clearBorders (clearBorders exampleState none) none =
      clearBorders exampleState none :=
  c9_removal_idempotence exampleState (createId 0 0) (by decide)

theorem countHide_reapply (b : BorderRecord) : countHide (reapplyBorder b) = countHide b :=
  rfl

theorem reapplyBorder_id (b : BorderRecord) :
    (reapplyBorder b).id = createId b.row b.col := rfl

theorem mem_insertStore_self {s : PluginState} {rec : BorderRecord}
    (h4 : countHide rec ≠ 4) :
    rec ∈ (insertBorderIntoSettings s rec).savedBorders := by
  rw [insertBorderIntoSettings, insertOverlay_savedBorders, insertStore_savedBorders,
    if_neg h4]
  split
  · next hf => exact replaceFirst_found_mem rec _ hf
  · exact List.mem_append.mpr (Or.inr (List.mem_singleton.mpr rfl))

theorem updateFirst_found_mem (b : BorderRecord) (range : Int × Int) :
    ∀ l : List OverlayEntry, (overlayUpdateFirst b range l).fst = true →
      ({ settings := b, cellRange := some range } : OverlayEntry) ∈
        (overlayUpdateFirst b range l).snd := by
  intro l
  induction l with
  | nil => intro h; simp [overlayUpdateFirst] at h
  | cons e rest ih =>
    intro h
    by_cases he : e.settings.id = b.id
    · rw [overlayUpdateFirst, if_pos he]
      exact List.mem_cons_self _ _
    · rw [overlayUpdateFirst, if_neg he] at h ⊢
      exact List.mem_cons_of_mem e (ih h)

theorem insert_live_entry (s : PluginState) (rec : BorderRecord) :
    ∃ e ∈ (insertBorderIntoSettings s rec).customSelections,
      e.settings.id = rec.id ∧ e.cellRange = some (rec.row, rec.col) := by
  rw [insertBorderIntoSettings, insertOverlay_customSelections,
    insertStore_customSelections]
  split
  · next hf =>
    exact ⟨{ settings := rec, cellRange := some (rec.row, rec.col) },
      updateFirst_found_mem rec _ _ hf, rfl, rfl⟩
  · exact ⟨{ settings := rec, cellRange := some (rec.row, rec.col) },
      List.mem_append.mpr (Or.inr (List.mem_singleton.mpr rfl)), rfl, rfl⟩

theorem mem_spliceList_of_ne {x : BorderRecord} {borderId : BorderId}
    (hne : x.id ≠ borderId) :
    ∀ l : List BorderRecord, x ∈ l → x ∈ spliceList borderId l := by
  intro l
  induction l with
  | nil => intro h; exact absurd h (List.not_mem_nil x)
  | cons r rest ih =>
    intro h
    by_cases hr : r.id = borderId
    · rw [spliceList, if_pos hr]
      rcases List.mem_cons.mp h with rfl | h2
      · exact absurd hr hne
      · exact h2
    · rw [spliceList, if_neg hr]
      rcases List.mem_cons.mp h with rfl | h2
      · exact List.mem_cons_self _ _
      · exact List.mem_cons_of_mem r (ih h2)

theorem mem_replace_of_ne {x b : BorderRecord} (hne : x.id ≠ b.id) :
    ∀ l : List BorderRecord, x ∈ l → x ∈ (replaceFirstById b l).snd := by
  intro l
  induction l with
  | nil => intro h; exact absurd h (List.not_mem_nil x)
  | cons r rest ih =>
    intro h
    by_cases hr : r.id = b.id
    · rw [replaceFirstById, if_pos hr]
      rcases List.mem_cons.mp h with rfl | h2
      · exact absurd hr hne
      · exact List.mem_cons_of_mem b h2
    · rw [replaceFirstById, if_neg hr]
      rcases List.mem_cons.mp h with rfl | h2
      · exact List.mem_cons_self _ _
      · exact List.mem_cons_of_mem r (ih h2)

theorem mem_insert_of_ne {s : PluginState} {x rec : BorderRecord}
    (hne : x.id ≠ rec.id) (h : x ∈ s.savedBorders) :
    x ∈ (insertBorderIntoSettings s rec).savedBorders := by
  rw [insertBorderIntoSettings, insertOverlay_savedBorders, insertStore_savedBorders]
  split
  · exact mem_spliceList_of_ne hne _ h
  · split
    · exact mem_replace_of_ne hne _ h
    · exact List.mem_append.mpr (Or.inl (mem_replace_of_ne hne _ h))

theorem mem_updateFirst_of_ne {e : OverlayEntry} {b : BorderRecord}
    {range : Int × Int} (hne : e.settings.id ≠ b.id) :
    ∀ l : List OverlayEntry, e ∈ l → e ∈ (overlayUpdateFirst b range l).snd := by
  intro l
  induction l with
  | nil => intro h; exact absurd h (List.not_mem_nil e)
  | cons x rest ih =>
    intro h
    by_cases hx : x.settings.id = b.id
    · rw [overlayUpdateFirst, if_pos hx]
      rcases List.mem_cons.mp h with rfl | h2
      · exact absurd hx hne
      · exact List.mem_cons_of_mem _ h2
    · rw [overlayUpdateFirst, if_neg hx]
      rcases List.mem_cons.mp h with rfl | h2
      · exact List.mem_cons_self _ _
      · exact List.mem_cons_of_mem x (ih h2)

theorem mem_insert_overlay_of_ne {s : PluginState} {e : OverlayEntry}
    {rec : BorderRecord} (hne : e.settings.id ≠ rec.id)
    (h : e ∈ s.customSelections) :
    e ∈ (insertBorderIntoSettings s rec).customSelections := by
  rw [insertBorderIntoSettings, insertOverlay_customSelections,
    insertStore_customSelections]
  split
  · exact mem_updateFirst_of_ne hne _ h
  · exact List.mem_append.mpr (Or.inl h)

theorem prepareAdded_cellMeta (s : PluginState) (r c : Int) (d : BorderDescriptor) :
    (prepareBorderFromCustomAdded s r c d).cellMeta =
      metaSet (r, c) (extendDefaultBorder (createEmptyBorders r c) d) s.cellMeta := by
  rw [prepareBorderFromCustomAdded, insert_cellMeta]

theorem createCB_record_cons (acc : PluginState) (b : BorderRecord)
    (l : List ConfigEntry) :
    createCustomBorders acc (recordToConfigEntry b :: l) =
      createCustomBorders (prepareBorderFromCustomAdded acc b.row b.col
        (recordToConfigEntry b).descriptor) l := rfl

theorem createCB_fold_pres :
    ∀ (t : List BorderRecord) (acc : PluginState) (x : BorderRecord)
      (tid : BorderId) (r0 c0 : Int),
      (∀ b' ∈ t, createId b'.row b'.col ≠ x.id) →
      (∀ b' ∈ t, ((b'.row, b'.col) : Int × Int) ≠ (r0, c0)) →
      x ∈ acc.savedBorders →
      metaLookup acc.cellMeta r0 c0 = some x →
      (∃ e ∈ acc.customSelections, e.settings.id = tid ∧ e.cellRange ≠ none) →
      (∀ b' ∈ t, createId b'.row b'.col ≠ tid) →
      x ∈ (createCustomBorders acc (t.map recordToConfigEntry)).savedBorders ∧
      metaLookup (createCustomBorders acc (t.map recordToConfigEntry)).cellMeta
        r0 c0 = some x ∧
      ∃ e ∈ (createCustomBorders acc (t.map recordToConfigEntry)).customSelections,
        e.settings.id = tid ∧ e.cellRange ≠ none := by
  intro t
  induction t with
  | nil => intro acc x tid r0 c0 _ _ h1 h2 h3 _; exact ⟨h1, h2, h3⟩
  | cons b1 t' ih =>
    intro acc x tid r0 c0 hx hkey h1 h2 h3 htid
    rw [List.map_cons, createCB_record_cons]
    have hidne : x.id ≠ (reapplyBorder b1).id := by
      rw [reapplyBorder_id]
      exact fun h => hx b1 (List.mem_cons_self b1 t') h.symm
    refine ih _ x tid r0 c0
      (fun b' hb' => hx b' (List.mem_cons_of_mem b1 hb'))
      (fun b' hb' => hkey b' (List.mem_cons_of_mem b1 hb')) ?_ ?_ ?_
      (fun b' hb' => htid b' (List.mem_cons_of_mem b1 hb'))
    · exact mem_insert_of_ne hidne h1
    · rw [prepareAdded_cellMeta]
      rw [metaLookup_metaSet_other _ _ _ _ _
        (hkey b1 (List.mem_cons_self b1 t'))]
      exact h2
    · rcases h3 with ⟨e, he, hid, hrange⟩
      refine ⟨e, ?_, hid, hrange⟩
      have hene : e.settings.id ≠ (reapplyBorder b1).id := by
        rw [reapplyBorder_id, hid]
        exact fun h => htid b1 (List.mem_cons_self b1 t') h.symm
      exact mem_insert_overlay_of_ne hene he

theorem createCB_reapplies :
    ∀ (l : List BorderRecord) (acc : PluginState),
      (∀ b ∈ l, countHide b ≠ 4) →
      (∀ b ∈ l, b.id = createId b.row b.col) →
      (l.map (fun b => b.id)).Nodup →
      ∀ b ∈ l,
        reapplyBorder b ∈
          (createCustomBorders acc (l.map recordToConfigEntry)).savedBorders ∧
        metaLookup (createCustomBorders acc (l.map recordToConfigEntry)).cellMeta
          b.row b.col = some (reapplyBorder b) ∧
        ∃ e ∈ (createCustomBorders acc (l.map recordToConfigEntry)).customSelections,
          e.settings.id = b.id ∧ e.cellRange ≠ none := by
  intro l
  induction l with
  | nil => intro acc _ _ _ b hb; exact absurd hb (List.not_mem_nil b)
  | cons b0 t ih =>
    intro acc hinv hwf hnd b hb
    rw [List.map_cons, createCB_record_cons]
    simp only [List.map_cons, List.nodup_cons] at hnd
    rcases List.mem_cons.mp hb with rfl | hb2
    · -- the head record is re-applied by the first step and preserved after
      have h4 : countHide (reapplyBorder b) ≠ 4 := by
        rw [countHide_reapply]
        exact hinv b (List.mem_cons_self b t)
      have hb0id : b.id = createId b.row b.col := hwf b (List.mem_cons_self b t)
      have hxne : ∀ b' ∈ t, createId b'.row b'.col ≠ (reapplyBorder b).id := by
        intro b' hb' h
        rw [reapplyBorder_id, ← hwf b' (List.mem_cons_of_mem b hb'), ← hb0id] at h
        exact hnd.1 (h ▸ List.mem_map.mpr ⟨b', hb', rfl⟩)
      have hkeyne : ∀ b' ∈ t, ((b'.row, b'.col) : Int × Int) ≠ (b.row, b.col) := by
        intro b' hb' h
        apply hxne b' hb'
        rw [reapplyBorder_id]
        exact congrArg (fun p : Int × Int => createId p.1 p.2) h
      have htidne : ∀ b' ∈ t, createId b'.row b'.col ≠ b.id := by
        intro b' hb' h
        exact hxne b' hb' (by rw [reapplyBorder_id, ← hb0id]; exact h)
      have hstep := createCB_fold_pres t
        (prepareBorderFromCustomAdded acc b.row b.col (recordToConfigEntry b).descriptor)
        (reapplyBorder b) b.id b.row b.col hxne hkeyne
        (mem_insertStore_self h4)
        (by rw [prepareAdded_cellMeta]
            exact metaLookup_metaSet_self _ _ _ _)
        (by rcases insert_live_entry
              ({ acc with cellMeta := metaSet (b.row, b.col) (reapplyBorder b) acc.cellMeta })
              (reapplyBorder b) with ⟨e, he, hid, hr⟩
            refine ⟨e, he, ?_, ?_⟩
            · rw [hid, reapplyBorder_id, ← hb0id]
            · rw [hr]; intro h; exact Option.noConfusion h)
        htidne
      exact hstep
    · exact ih _ (fun b' hb' => hinv b' (List.mem_cons_of_mem b0 hb'))
        (fun b' hb' => hwf b' (List.mem_cons_of_mem b0 hb')) hnd.2 b hb2

/-- C10: the no-argument `clearBorders` leaves the `savedBorders` list
itself unchanged, and after `updatePlugin` with a truthy non-array
`customBorders` setting (disable — i.e. `clearBorders()` — then re-enable
and `changeBorderSettings`), every retained record is re-applied: its
merged form is back in the store, back in the cell's metadata, and a live
overlay entry with its id exists again. -/
theorem c10_clear_retains_store_and_update_reapplies (s : PluginState)
    (hinv : StoreInv s) (hids : StoreIdsMatch s) (hnd : StoreIdsNodup s) :
    (clearBorders s none).savedBorders = s.savedBorders ∧
    ∀ b ∈ s.savedBorders,
      reapplyBorder b ∈
        (updatePlugin s (CustomBordersSetting.boolSetting true)).savedBorders ∧
      metaLookup (updatePlugin s (CustomBordersSetting.boolSetting true)).cellMeta
        b.row b.col = some (reapplyBorder b) ∧
      ∃ e ∈ (updatePlugin s (CustomBordersSetting.boolSetting true)).customSelections,
        e.settings.id = b.id ∧ e.cellRange ≠ none := by
  have hsb : (clearBorders s none).savedBorders = s.savedBorders :=
    clearFold_savedBorders _ _
  refine ⟨hsb, ?_⟩
  intro b hb
  have hup : updatePlugin s (CustomBordersSetting.boolSetting true) =
      createCustomBorders (clearBorders s none)
        (s.savedBorders.map recordToConfigEntry) := by
    rw [updatePlugin, changeBorderSettings, hsb]
  rw [hup]
  exact createCB_reapplies s.savedBorders (clearBorders s none) hinv hids hnd b hb

/-- Witness for C10 at a concrete state. -/
theorem c10_clear_retains_store_and_update_reapplies_witness :
    (clearBorders exampleState none).savedBorders = exampleState.savedBorders ∧
    ∀ b ∈ exampleState.savedBorders,
      reapplyBorder b ∈
        (updatePlugin exampleState (CustomBordersSetting.boolSetting true)).savedBorders ∧
      metaLookup
        (updatePlugin exampleState (CustomBordersSetting.boolSetting true)).cellMeta
        b.row b.col = some (reapplyBorder b) ∧
      ∃ e ∈ (updatePlugin exampleState
          (CustomBordersSetting.boolSetting true)).customSelections,
        e.settings.id = b.id ∧ e.cellRange ≠ none :=
  c10_clear_retains_store_and_update_reapplies exampleState (by decide) (by decide)
    (by decide)
